import Mathlib

/-!
Shallow embedding of the preview-pdf rendering pipeline core, with proofs of
the spec claims about it.  Each Rust module is translated to executable Lean
definitions: machine integers become `Nat` (with explicit saturation where the
source uses `saturating_add`), `f32` becomes an exact three-constructor type
(NaN / infinities / rational finite values), `lru::LruCache` becomes an
association list ordered most-recently-used first, `HashMap`/`HashSet` become
association lists with unique keys, and `BinaryHeap` becomes a list from which
a maximal element is extracted (the source's `Ord` instance is total on
reachable states because ordinals / task ids are distinct there).
-/

namespace PreviewPdf

/-- `u64::MAX`, the saturation bound of `saturating_add` (also `usize::MAX`
on 64-bit targets). -/
def u64Max : Nat := 2 ^ 64 - 1

/-- `x.saturating_add(1)` for `u64` / `usize` counters. -/
def satSucc (x : Nat) : Nat := min (x + 1) u64Max

/-- Model of Rust `f32` values: NaN, the two infinities, or an exact finite
value.  Finite arithmetic is modelled exactly over `ℚ`; the repository only
compares scales against exactly representable constants (0.0, 1.0, 2.5). -/
inductive F32 where
  | nan : F32
  | inf (neg : Bool) : F32
  | finite (val : ℚ) : F32
deriving DecidableEq

/-- `f32::is_finite`. -/
def F32.isFinite : F32 → Bool
  | .finite _ => true
  | _ => false

/-- Rust `<` on `f32`: any comparison with NaN is false; infinities ordered
around all finite values. -/
def F32.ltB : F32 → F32 → Bool
  | .nan, _ => false
  | _, .nan => false
  | .inf true, .inf true => false
  | .inf true, _ => true
  | .inf false, _ => false
  | .finite _, .inf true => false
  | .finite _, .inf false => true
  | .finite a, .finite b => decide (a < b)

/-- `(scale.max(0.0) * 1000.0).round() as u32` from `RenderedPageKey::new`.
`f32::max` drops a NaN operand, so NaN and negative scales behave as `0.0`;
the `as u32` cast saturates.  For a non-negative finite `q = num / den` the
value `round(q * 1000)` (round half away from zero) is computed exactly as
`⌊(2 · 1000 · num + den) / (2 · den)⌋` on integers. -/
def f32ToScaleMilli : F32 → Nat
  | .nan => 0
  | .inf true => 0
  | .inf false => 2 ^ 32 - 1
  | .finite q =>
    if q.num < 0 then 0
    else min (Int.fdiv (2 * 1000 * q.num + q.den) (2 * q.den)).toNat (2 ^ 32 - 1)

/-! ## src/backend/traits.rs -/

/-- `RgbaFrame { width, height, pixels: Arc<[u8]> }`. -/
structure RgbaFrame where
  width : Nat
  height : Nat
  pixels : List Nat
deriving DecidableEq

/-- `RgbaFrame::byte_len`, i.e. `self.pixels.len()`. -/
def RgbaFrame.byte_len (f : RgbaFrame) : Nat := f.pixels.length

/-! ## src/render/cache.rs : key type -/

/-- `RenderedPageKey { doc_id: u64, page: usize, scale_milli: u32 }`. -/
structure RenderedPageKey where
  doc_id : Nat
  page : Nat
  scale_milli : Nat
deriving DecidableEq

/-- `RenderedPageKey::new`. -/
def RenderedPageKey.new (doc_id page : Nat) (scale : F32) : RenderedPageKey :=
  { doc_id := doc_id, page := page, scale_milli := f32ToScaleMilli scale }

/-! ## Association-list primitives used to model `lru::LruCache` and
`std::collections::HashMap`.  The list is kept most-recently-used first for
the LRU model; reachable states have pairwise-distinct keys. -/

/-- Value stored under `k`, if any (`LruCache::peek` / `HashMap::get`). -/
def lookupKey {K V : Type} [DecidableEq K] (k : K) : List (K × V) → Option V
  | [] => none
  | (k', v) :: rest => if k' = k then some v else lookupKey k rest

/-- Key-membership test (`contains_key`). -/
def containsKey {K V : Type} [DecidableEq K] (k : K) (l : List (K × V)) : Bool :=
  (lookupKey k l).isSome

/-- Remove the entry under `k`, returning it (`LruCache::pop` /
`HashMap::remove`).  Removes the first occurrence; reachable states have at
most one. -/
def removeKey {K V : Type} [DecidableEq K] (k : K) : List (K × V) → Option V × List (K × V)
  | [] => (none, [])
  | (k', v) :: rest =>
    if k' = k then (some v, rest)
    else
      let r := removeKey k rest
      (r.1, (k', v) :: r.2)

/-- Promote the entry under `k` to most-recently-used (`LruCache::get`
reordering). -/
def touchKey {K V : Type} [DecidableEq K] (k : K) (l : List (K × V)) : List (K × V) :=
  match lookupKey k l with
  | none => l
  | some v => (k, v) :: (removeKey k l).2

/-- `LruCache::put` with capacity `cap`: an existing key is replaced and
promoted; a new key at capacity implicitly evicts the least-recently-used
entry (the list's last element). -/
def lruPut {K V : Type} [DecidableEq K] (cap : Nat) (k : K) (v : V)
    (l : List (K × V)) : List (K × V) :=
  if containsKey k l then (k, v) :: (removeKey k l).2
  else if cap ≤ l.length then (k, v) :: l.dropLast
  else (k, v) :: l

/-! ## src/render/cache.rs : RenderedPageCache (L1) -/

/-- `RenderedPageCache`, counters inlined. -/
structure RenderedPageCache where
  max_entries : Nat
  memory_budget_bytes : Nat
  memory_bytes : Nat
  entries : List (RenderedPageKey × RgbaFrame)
  hits : Nat
  misses : Nat
  evictions : Nat
deriving DecidableEq

/-- `RenderedPageCache::new` (both bounds clamped to at least 1). -/
def RenderedPageCache.new (max_entries memory_budget_bytes : Nat) : RenderedPageCache :=
  { max_entries := max max_entries 1
    memory_budget_bytes := max memory_budget_bytes 1
    memory_bytes := 0
    entries := []
    hits := 0
    misses := 0
    evictions := 0 }

/-- `RenderedPageCache::get`: counter update plus LRU touch. -/
def RenderedPageCache.get (c : RenderedPageCache) (k : RenderedPageKey) :
    Option RgbaFrame × RenderedPageCache :=
  match lookupKey k c.entries with
  | some v => (some v, { c with hits := c.hits + 1, entries := touchKey k c.entries })
  | none => (none, { c with misses := c.misses + 1 })

/-- `RenderedPageCache::clear` (counters intentionally kept). -/
def RenderedPageCache.clear (c : RenderedPageCache) : RenderedPageCache :=
  { c with entries := [], memory_bytes := 0 }

/-- `peek_lru().is_some_and(|(_k, cached)| cached.byte_len() > budget)` from
the sticky-oversize guard of `insert`. -/
def lastIsOversize (budget : Nat) (items : List (RenderedPageKey × RgbaFrame)) : Bool :=
  match items.getLast? with
  | some e => decide (budget < e.2.byte_len)
  | none => false

/-- The eviction loop `evict_while_needed` with explicit fuel (each iteration
removes one entry, so `items.length` units of fuel run the loop to its exit
condition; proved below): pop the least-recently-used entry while either bound
is exceeded, but never evict the last remaining entry. -/
def evictLoopL1Aux (maxE budget : Nat) :
    Nat → List (RenderedPageKey × RgbaFrame) → Nat → Nat →
    List (RenderedPageKey × RgbaFrame) × Nat × Nat
  | 0, items, mem, evk => (items, mem, evk)
  | fuel + 1, items, mem, evk =>
    if maxE < items.length ∨ budget < mem then
      if items.length = 1 then (items, mem, evk)
      else
        match items.getLast? with
        | none => (items, mem, evk)
        | some e =>
          evictLoopL1Aux maxE budget fuel items.dropLast (mem - e.2.byte_len) (evk + 1)
    else (items, mem, evk)

/-- `evict_while_needed` on L1 state (entries, memory_bytes, evictions). -/
def evictLoopL1 (maxE budget : Nat) (items : List (RenderedPageKey × RgbaFrame))
    (mem evk : Nat) : List (RenderedPageKey × RgbaFrame) × Nat × Nat :=
  evictLoopL1Aux maxE budget items.length items mem evk

/-- `RenderedPageCache::insert`, translated branch by branch. -/
def RenderedPageCache.insert (c : RenderedPageCache) (key : RenderedPageKey)
    (frame : RgbaFrame) (allow_single_oversize : Bool) : Bool × RenderedPageCache :=
  let frame_bytes := frame.byte_len
  if c.memory_budget_bytes < frame_bytes then
    if allow_single_oversize = false then (false, c)
    else
      let c1 := c.clear
      (true, { c1 with
                memory_bytes := frame_bytes
                entries := lruPut c1.max_entries key frame c1.entries })
  else if allow_single_oversize = false
      ∧ c.memory_budget_bytes < c.memory_bytes
      ∧ c.entries.length = 1
      ∧ lookupKey key c.entries = none
      ∧ lastIsOversize c.memory_budget_bytes c.entries = true then
    (false, c)
  else
    let popped := removeKey key c.entries
    let mem1 := match popped.1 with
      | some prev => c.memory_bytes - prev.byte_len
      | none => c.memory_bytes
    let entries1 := popped.2
    let implicit_evicted_bytes : Option Nat :=
      if c.max_entries ≤ entries1.length ∧ lookupKey key entries1 = none then
        entries1.getLast?.map (fun e => e.2.byte_len)
      else none
    let mem2 := mem1 + frame_bytes
    let entries2 := lruPut c.max_entries key frame entries1
    let memEvk : Nat × Nat := match implicit_evicted_bytes with
      | some b => (mem2 - b, c.evictions + 1)
      | none => (mem2, c.evictions)
    let final := evictLoopL1 c.max_entries c.memory_budget_bytes entries2 memEvk.1 memEvk.2
    (true, { c with entries := final.1, memory_bytes := final.2.1, evictions := final.2.2 })

/-- `RenderedPageCache::remove`. -/
def RenderedPageCache.remove (c : RenderedPageCache) (k : RenderedPageKey) :
    RenderedPageCache :=
  match lookupKey k c.entries with
  | some frame =>
    { c with
        entries := (removeKey k c.entries).2
        memory_bytes := c.memory_bytes - frame.byte_len
        evictions := c.evictions + 1 }
  | none => c

/-- `RenderedPageCache::remove_doc`: collect the doomed keys, then remove each. -/
def RenderedPageCache.remove_doc (c : RenderedPageCache) (docId : Nat) : RenderedPageCache :=
  let doomed := (c.entries.filter (fun e => e.1.doc_id = docId)).map (fun e => e.1)
  doomed.foldl (fun acc k => acc.remove k) c

/-- The L1 operations named by the spec's cache invariant. -/
inductive L1Op where
  | get (k : RenderedPageKey)
  | insert (k : RenderedPageKey) (frame : RgbaFrame) (allow : Bool)
  | remove (k : RenderedPageKey)
  | removeDoc (docId : Nat)
  | clear
deriving DecidableEq

/-- Apply one L1 operation (return values discarded). -/
def L1Op.apply (c : RenderedPageCache) : L1Op → RenderedPageCache
  | .get k => (c.get k).2
  | .insert k f allow => (c.insert k f allow).2
  | .remove k => c.remove k
  | .removeDoc d => c.remove_doc d
  | .clear => c.clear

/-- Run a finite sequence of L1 operations. -/
def runL1 (ops : List L1Op) (c : RenderedPageCache) : RenderedPageCache :=
  ops.foldl L1Op.apply c

/-- Total of a per-value byte measure over an entry list. -/
def sumValBy {K V : Type} (f : V → Nat) (l : List (K × V)) : Nat :=
  (l.map (fun e => f e.2)).sum

/-- Byte total of the live entries of an L1 entry list. -/
def l1SumBytes (items : List (RenderedPageKey × RgbaFrame)) : Nat :=
  sumValBy RgbaFrame.byte_len items

/-- The spec's L1 cache invariant: exact byte accounting, the entry bound, and
the budget bound with the single-oversize-entry escape hatch. -/
def L1Inv (c : RenderedPageCache) : Prop :=
  c.memory_bytes = l1SumBytes c.entries
  ∧ c.entries.length ≤ c.max_entries
  ∧ (c.memory_bytes ≤ c.memory_budget_bytes
      ∨ (c.entries.length = 1
          ∧ ∀ e ∈ c.entries, c.memory_budget_bytes < e.2.byte_len))

instance (c : RenderedPageCache) : Decidable (L1Inv c) := by
  unfold L1Inv
  infer_instance

/-- Internal well-formedness carried through the induction: the invariant plus
distinct keys and the constructor's non-zero bounds. -/
def L1Wf (c : RenderedPageCache) : Prop :=
  L1Inv c
  ∧ (c.entries.map (fun e => e.1)).Nodup
  ∧ 1 ≤ c.max_entries
  ∧ 1 ≤ c.memory_budget_bytes

/-! ## src/presenter/traits.rs and src/presenter/l2_cache.rs (L2) -/

/-- `Viewport` (cell rectangle, `u16` fields). -/
structure Viewport where
  x : Nat
  y : Nat
  width : Nat
  height : Nat
deriving DecidableEq

/-- `PanOffset` (`i32` cell offsets). -/
structure PanOffset where
  cells_x : Int
  cells_y : Int
deriving DecidableEq

/-- `TerminalFrameKey`. -/
structure TerminalFrameKey where
  rendered_page : RenderedPageKey
  viewport : Viewport
  pan : PanOffset
deriving DecidableEq

/-- `TerminalFrameState`; the encoded `StatefulProtocol` payload is opaque to
the cache (an external crate's type) and is dropped in the model. -/
inductive TerminalFrameState where
  | pendingFrame (frame : RgbaFrame)
  | encoding
  | ready
  | failed
deriving DecidableEq

/-- `TerminalFrameEntry { state, approx_bytes }`. -/
structure TerminalFrameEntry where
  state : TerminalFrameState
  approx_bytes : Nat
deriving DecidableEq

/-- `TerminalFrameCache` (the L2 cache). -/
structure TerminalFrameCache where
  max_entries : Nat
  memory_budget_bytes : Nat
  entries : List (TerminalFrameKey × TerminalFrameEntry)
  memory_bytes : Nat
  hits : Nat
  misses : Nat
deriving DecidableEq

/-- `TerminalFrameCache::new`. -/
def TerminalFrameCache.new (max_entries memory_budget_bytes : Nat) : TerminalFrameCache :=
  { max_entries := max max_entries 1
    memory_budget_bytes := max memory_budget_bytes 1
    entries := []
    memory_bytes := 0
    hits := 0
    misses := 0 }

/-- `TerminalFrameCache::lookup_mut`: counters plus LRU touch (the mutable
reference it hands back is modelled by the separate `setState` operation). -/
def TerminalFrameCache.lookup (c : TerminalFrameCache) (k : TerminalFrameKey) :
    Option TerminalFrameEntry × TerminalFrameCache :=
  match lookupKey k c.entries with
  | some v => (some v, { c with hits := c.hits + 1, entries := touchKey k c.entries })
  | none => (none, { c with misses := c.misses + 1 })

/-- In-place mutation of `entry.state` through `lookup_mut` / `cached_mut`
references: every call site in the repository overwrites only the `state`
field, never `approx_bytes`. -/
def TerminalFrameCache.setState (c : TerminalFrameCache) (k : TerminalFrameKey)
    (st : TerminalFrameState) : TerminalFrameCache :=
  { c with entries := c.entries.map (fun e =>
      if e.1 = k then (e.1, { e.2 with state := st }) else e) }

/-- `TerminalFrameCache::clear`. -/
def TerminalFrameCache.clear (c : TerminalFrameCache) : TerminalFrameCache :=
  { c with entries := [], memory_bytes := 0 }

/-- L2's `evict_while_needed` with fuel (unlike L1 it has no last-entry stop). -/
def evictLoopL2Aux (maxE budget : Nat) :
    Nat → List (TerminalFrameKey × TerminalFrameEntry) → Nat →
    List (TerminalFrameKey × TerminalFrameEntry) × Nat
  | 0, items, mem => (items, mem)
  | fuel + 1, items, mem =>
    if maxE < items.length ∨ budget < mem then
      match items.getLast? with
      | none => (items, mem)
      | some e =>
        evictLoopL2Aux maxE budget fuel items.dropLast (mem - e.2.approx_bytes)
    else (items, mem)

/-- `evict_while_needed` on L2 state. -/
def evictLoopL2 (maxE budget : Nat) (items : List (TerminalFrameKey × TerminalFrameEntry))
    (mem : Nat) : List (TerminalFrameKey × TerminalFrameEntry) × Nat :=
  evictLoopL2Aux maxE budget items.length items mem

/-- `TerminalFrameCache::insert`: an over-budget frame clears the whole cache;
otherwise replace, account for the implicit LRU eviction, and evict while
needed. -/
def TerminalFrameCache.insert (c : TerminalFrameCache) (key : TerminalFrameKey)
    (frame : RgbaFrame) (approx_bytes : Nat) : TerminalFrameCache :=
  if c.memory_budget_bytes < approx_bytes then c.clear
  else
    let popped := removeKey key c.entries
    let mem1 := match popped.1 with
      | some prev => c.memory_bytes - prev.approx_bytes
      | none => c.memory_bytes
    let entries1 := popped.2
    let implicit_evicted_bytes : Option Nat :=
      if c.max_entries ≤ entries1.length ∧ lookupKey key entries1 = none then
        entries1.getLast?.map (fun e => e.2.approx_bytes)
      else none
    let mem2 := mem1 + approx_bytes
    let entries2 :=
      lruPut c.max_entries key { state := .pendingFrame frame, approx_bytes := approx_bytes } entries1
    let mem3 := match implicit_evicted_bytes with
      | some b => mem2 - b
      | none => mem2
    let final := evictLoopL2 c.max_entries c.memory_budget_bytes entries2 mem3
    { c with entries := final.1, memory_bytes := final.2 }

/-- The L2 operations exercised by the repository. -/
inductive L2Op where
  | lookup (k : TerminalFrameKey)
  | insert (k : TerminalFrameKey) (frame : RgbaFrame) (approx_bytes : Nat)
  | setState (k : TerminalFrameKey) (st : TerminalFrameState)
  | clear
deriving DecidableEq

/-- Apply one L2 operation. -/
def L2Op.apply (c : TerminalFrameCache) : L2Op → TerminalFrameCache
  | .lookup k => (c.lookup k).2
  | .insert k f b => c.insert k f b
  | .setState k st => c.setState k st
  | .clear => c.clear

/-- Run a finite sequence of L2 operations. -/
def runL2 (ops : List L2Op) (c : TerminalFrameCache) : TerminalFrameCache :=
  ops.foldl L2Op.apply c

/-- Byte total of the live entries of an L2 entry list. -/
def l2SumBytes (items : List (TerminalFrameKey × TerminalFrameEntry)) : Nat :=
  sumValBy TerminalFrameEntry.approx_bytes items

/-- The spec's cache invariant instantiated at L2.  L2 never stores an
oversize entry, so its budget disjunct holds outright. -/
def L2Inv (c : TerminalFrameCache) : Prop :=
  c.memory_bytes = l2SumBytes c.entries
  ∧ c.entries.length ≤ c.max_entries
  ∧ c.memory_bytes ≤ c.memory_budget_bytes

/-- Internal L2 well-formedness. -/
def L2Wf (c : TerminalFrameCache) : Prop :=
  L2Inv c
  ∧ (c.entries.map (fun e => e.1)).Nodup
  ∧ 1 ≤ c.max_entries
  ∧ 1 ≤ c.memory_budget_bytes

/-! ## src/render/prefetch.rs : PrefetchQueue -/

/-- `PrefetchClass`; `cls` stands in for the Rust field name `class`, a Lean
keyword. -/
inductive PrefetchClass where
  | criticalCurrent
  | guardReverse
  | directionalLead
  | background
deriving DecidableEq

/-- `PrefetchClass::rank`. -/
def PrefetchClass.rank : PrefetchClass → Nat
  | .criticalCurrent => 4
  | .guardReverse => 3
  | .directionalLead => 2
  | .background => 1

/-- `PrefetchQueueConfig`. -/
structure PrefetchQueueConfig where
  max_prefetch_depth : Nat
  guard_reverse_depth : Nat
  cancel_stale_generation : Bool
  dedupe_by_key : Bool
deriving DecidableEq

/-- `PrefetchQueueConfig::default`. -/
def PrefetchQueueConfig.default : PrefetchQueueConfig :=
  { max_prefetch_depth := 3
    guard_reverse_depth := 1
    cancel_stale_generation := true
    dedupe_by_key := true }

/-- `QueueTaskMeta`. -/
structure QueueTaskMeta (K : Type) where
  key : K
  cls : PrefetchClass
  generation : Nat
deriving DecidableEq

/-- `QueuedTask`: payload, meta, and the FIFO ordinal. -/
structure QueuedTask (K T : Type) where
  task : T
  meta : QueueTaskMeta K
  ordinal : Nat
deriving DecidableEq

/-- `impl Ord for QueuedTask`: class rank, then generation, then *reversed*
ordinal (so the smaller ordinal — the earlier insertion — is the greater
element and is served first among ties). -/
def cmpQueued {K T : Type} (a b : QueuedTask K T) : Ordering :=
  ((compare a.meta.cls.rank b.meta.cls.rank).then
    (compare a.meta.generation b.meta.generation)).then
    (compare b.ordinal a.ordinal)

/-- `a` is served strictly before `b` under the heap order (the proposition
equivalent of `cmpQueued a b = .gt`). -/
def servedBefore {K T : Type} (a b : QueuedTask K T) : Prop :=
  b.meta.cls.rank < a.meta.cls.rank
  ∨ (a.meta.cls.rank = b.meta.cls.rank
      ∧ (b.meta.generation < a.meta.generation
          ∨ (a.meta.generation = b.meta.generation ∧ a.ordinal < b.ordinal)))

instance {K T : Type} (a b : QueuedTask K T) : Decidable (servedBefore a b) := by
  unfold servedBefore
  infer_instance

/-- `BinaryHeap::pop` modelled on the content list: return a maximal element
under `cmpQueued` together with the remaining elements.  On reachable states
ordinals are pairwise distinct, so the maximum is unique and the model is
exact. -/
def extractMax {K T : Type} : List (QueuedTask K T) →
    Option (QueuedTask K T × List (QueuedTask K T))
  | [] => none
  | t :: ts =>
    match extractMax ts with
    | none => some (t, [])
    | some (m, rest) =>
      if cmpQueued t m = .gt then some (t, ts) else some (m, t :: rest)

/-- Drain the heap with explicit fuel (each `extractMax` removes exactly one
element, so `l.length` units of fuel drain the whole list; proved below). -/
def popAllAux {K T : Type} : Nat → List (QueuedTask K T) → List (QueuedTask K T)
  | 0, _ => []
  | fuel + 1, l =>
    match extractMax l with
    | none => []
    | some (m, rest) => m :: popAllAux fuel rest

/-- Drain the heap: the full pop sequence, most-urgent first. -/
def popAllTasks {K T : Type} (l : List (QueuedTask K T)) : List (QueuedTask K T) :=
  popAllAux l.length l

/-- `HashSet::insert` on the key-set model (append-if-absent keeps the model
deterministic; a `HashSet` has no observable order). -/
def insertSet {K : Type} [DecidableEq K] (k : K) (s : List K) : List K :=
  if k ∈ s then s else s ++ [k]

/-- `PrefetchQueue`. -/
structure PrefetchQueue (K T : Type) where
  tasks : List (QueuedTask K T)
  queued_keys : List K
  next_ordinal : Nat
  config : PrefetchQueueConfig

/-- `PrefetchQueue::new`. -/
def PrefetchQueue.new {K T : Type} (config : PrefetchQueueConfig) : PrefetchQueue K T :=
  { tasks := [], queued_keys := [], next_ordinal := 0, config := config }

/-- `PrefetchQueue::push`. -/
def PrefetchQueue.push {K T : Type} [DecidableEq K] (q : PrefetchQueue K T)
    (task : T) (meta : QueueTaskMeta K) : Bool × PrefetchQueue K T :=
  if q.config.dedupe_by_key = true ∧ meta.key ∈ q.queued_keys then (false, q)
  else
    (true,
      { q with
          tasks := q.tasks ++ [{ task := task, meta := meta, ordinal := q.next_ordinal }]
          next_ordinal := satSucc q.next_ordinal
          queued_keys :=
            if q.config.dedupe_by_key = true then insertSet meta.key q.queued_keys
            else q.queued_keys })

/-- `PrefetchQueue::pop_next_with_meta`. -/
def PrefetchQueue.pop_next_with_meta {K T : Type} [DecidableEq K] (q : PrefetchQueue K T) :
    Option ((T × QueueTaskMeta K) × PrefetchQueue K T) :=
  match extractMax q.tasks with
  | none => none
  | some (item, rest) =>
    some ((item.task, item.meta),
      { q with
          tasks := rest
          queued_keys :=
            if q.config.dedupe_by_key = true then q.queued_keys.erase item.meta.key
            else q.queued_keys })

/-- `PrefetchQueue::pop_next`. -/
def PrefetchQueue.pop_next {K T : Type} [DecidableEq K] (q : PrefetchQueue K T) :
    Option (T × PrefetchQueue K T) :=
  match q.pop_next_with_meta with
  | none => none
  | some ((task, _), q1) => some (task, q1)

/-- `PrefetchQueue::retain`: pop everything in heap order, keep the items the
predicate accepts, rebuild the key set, push the kept items back.  Returns the
removed count. -/
def PrefetchQueue.retain {K T : Type} [DecidableEq K] (q : PrefetchQueue K T)
    (keep : T → QueueTaskMeta K → Bool) : Nat × PrefetchQueue K T :=
  let popped := popAllTasks q.tasks
  let kept := popped.filter (fun t => keep t.task t.meta)
  let removed := (popped.filter (fun t => keep t.task t.meta = false)).length
  (removed,
    { q with
        tasks := kept
        queued_keys :=
          if q.config.dedupe_by_key = true then
            (kept.map (fun t => t.meta.key)).foldl (fun s k => insertSet k s) []
          else [] })

/-- The keep-predicate of `cancel_stale_prefetch`: an item survives when its
generation is current or its class is exempt from staleness. -/
def staleKeep {K : Type} (generation : Nat) (meta : QueueTaskMeta K) : Bool :=
  decide (generation ≤ meta.generation)
  || decide (meta.cls = PrefetchClass.criticalCurrent)
  || decide (meta.cls = PrefetchClass.guardReverse)

/-- `PrefetchQueue::cancel_stale_prefetch`. -/
def PrefetchQueue.cancel_stale_prefetch {K T : Type} [DecidableEq K]
    (q : PrefetchQueue K T) (generation : Nat) : Nat × PrefetchQueue K T :=
  if q.config.cancel_stale_generation = false then (0, q)
  else q.retain (fun _ meta => staleKeep generation meta)

/-- `PrefetchQueue::clear`. -/
def PrefetchQueue.clear {K T : Type} (q : PrefetchQueue K T) : Nat × PrefetchQueue K T :=
  (q.tasks.length, { q with tasks := [], queued_keys := [] })

/-- `PrefetchQueue::len`. -/
def PrefetchQueue.len {K T : Type} (q : PrefetchQueue K T) : Nat := q.tasks.length

/-- `PrefetchQueue::contains_key`. -/
def PrefetchQueue.containsKeyQ {K T : Type} [DecidableEq K] (q : PrefetchQueue K T)
    (k : K) : Bool :=
  if q.config.dedupe_by_key = true then decide (k ∈ q.queued_keys)
  else q.tasks.any (fun t => t.meta.key = k)

/-! ## src/render/scheduler.rs -/

/-- `NavDirection`. -/
inductive NavDirection where
  | forward
  | backward
deriving DecidableEq

/-- `NavIntent`. -/
structure NavIntent where
  dir : NavDirection
  streak : Nat
  generation : Nat
deriving DecidableEq

/-- `RenderPriority`. -/
inductive RenderPriority where
  | criticalCurrent
  | guardReverse
  | directionalLead
  | background
deriving DecidableEq

/-- `RenderPriority::to_prefetch_class`. -/
def RenderPriority.to_prefetch_class : RenderPriority → PrefetchClass
  | .criticalCurrent => .criticalCurrent
  | .guardReverse => .guardReverse
  | .directionalLead => .directionalLead
  | .background => .background

/-- `PrefetchPolicy`. -/
structure PrefetchPolicy where
  max_prefetch_depth : Nat
  guard_reverse_depth : Nat
deriving DecidableEq

/-- `PrefetchPolicy::default`. -/
def PrefetchPolicy.default : PrefetchPolicy :=
  { max_prefetch_depth := 3, guard_reverse_depth := 1 }

/-- `RenderTask`. -/
structure RenderTask where
  doc_id : Nat
  page : Nat
  scale : F32
  priority : RenderPriority
  generation : Nat
  reason : String
deriving DecidableEq

/-- `dynamic_depth`. -/
def dynamic_depth (streak : Nat) : Nat :=
  if streak ≤ 1 then 1
  else if streak ≤ 4 then 2
  else 3

/-- The effective plan depth `dynamic_depth(streak).min(max_prefetch_depth.max(1))`. -/
def planDepth (streak : Nat) (policy : PrefetchPolicy) : Nat :=
  min (dynamic_depth streak) (max policy.max_prefetch_depth 1)

/-- `push_relative`: append a task for `cursor + offset` unless that page
falls outside `[0, page_count)`. -/
def push_relative (out : List RenderTask) (cursor : Nat) (offset : Int)
    (page_count doc_id : Nat) (scale : F32) (priority : RenderPriority)
    (generation : Nat) (reason : String) : List RenderTask :=
  let pos : Int := (cursor : Int) + offset
  if pos < 0 ∨ (page_count : Int) ≤ pos then out
  else
    out ++ [{ doc_id := doc_id, page := pos.toNat, scale := scale,
              priority := priority, generation := generation, reason := reason }]

/-- `build_prefetch_plan_with_policy`. -/
def build_prefetch_plan_with_policy (cursor : Nat) (nav_intent : NavIntent)
    (page_count doc_id : Nat) (scale : F32) (policy : PrefetchPolicy) :
    List RenderTask :=
  if page_count = 0 then []
  else
    let depth := planDepth nav_intent.streak policy
    let guard_depth := policy.guard_reverse_depth
    let cursor := min cursor (page_count - 1)
    let tasks : List RenderTask :=
      [{ doc_id := doc_id, page := cursor, scale := scale,
         priority := .criticalCurrent, generation := nav_intent.generation,
         reason := "current-page" }]
    match nav_intent.dir with
    | .forward =>
      let tasks := push_relative tasks cursor 1 page_count doc_id scale
        .directionalLead nav_intent.generation "lead+1"
      let tasks := (List.range' 1 guard_depth).foldl (fun acc i =>
        push_relative acc cursor (-(i : Int)) page_count doc_id scale
          .guardReverse nav_intent.generation "guard-reverse") tasks
      let tasks := (List.range' 2 (depth - 1)).foldl (fun acc i =>
        push_relative acc cursor (i : Int) page_count doc_id scale
          .directionalLead nav_intent.generation
          (if i = 2 then "lead+2" else "lead+3")) tasks
      if 3 ≤ depth then
        push_relative tasks cursor (-((max guard_depth 1 + 1 : Nat) : Int)) page_count
          doc_id scale .background nav_intent.generation "background-reverse"
      else tasks
    | .backward =>
      let tasks := push_relative tasks cursor (-1) page_count doc_id scale
        .directionalLead nav_intent.generation "lead-1"
      let tasks := (List.range' 1 guard_depth).foldl (fun acc i =>
        push_relative acc cursor (i : Int) page_count doc_id scale
          .guardReverse nav_intent.generation "guard-reverse") tasks
      let tasks := (List.range' 2 (depth - 1)).foldl (fun acc i =>
        push_relative acc cursor (-(i : Int)) page_count doc_id scale
          .directionalLead nav_intent.generation
          (if i = 2 then "lead-2" else "lead-3")) tasks
      if 3 ≤ depth then
        push_relative tasks cursor ((max guard_depth 1 + 1 : Nat) : Int) page_count
          doc_id scale .background nav_intent.generation "background-reverse"
      else tasks

/-- `build_prefetch_plan` (doc 0, scale 1.0, default policy). -/
def build_prefetch_plan (cursor : Nat) (nav_intent : NavIntent) (page_count : Nat) :
    List RenderTask :=
  build_prefetch_plan_with_policy cursor nav_intent page_count 0 (.finite 1)
    PrefetchPolicy.default

/-! ## src/app/nav.rs : NavTracker -/

/-- `NavTracker`. -/
structure NavTracker where
  dir : NavDirection
  streak : Nat
  generation : Nat
deriving DecidableEq

/-- `NavTracker::default`. -/
def NavTracker.default : NavTracker :=
  { dir := .forward, streak := 0, generation := 0 }

/-- `NavTracker::intent`. -/
def NavTracker.intent (t : NavTracker) : NavIntent :=
  { dir := t.dir, streak := t.streak, generation := t.generation }

/-- `NavTracker::on_page_change`. -/
def NavTracker.on_page_change (t : NavTracker) (prev_page next_page : Nat) : NavTracker :=
  if prev_page = next_page then t
  else
    let t := { t with generation := satSucc t.generation }
    let direction : NavDirection := if prev_page < next_page then .forward else .backward
    let is_jump : Bool :=
      decide (1 < (if prev_page ≤ next_page then next_page - prev_page else prev_page - next_page))
    if is_jump = true then { t with dir := direction, streak := 1 }
    else if t.dir = direction then
      { t with streak := if t.streak = 0 then 1 else satSucc t.streak }
    else { t with dir := direction, streak := 1 }

/-- The §8 scenario-1 trace: tracker state after `n` consecutive next-page
commands starting from page 0 (command `n` moves page `n-1` → `n`). -/
def c3Tracker : Nat → NavTracker
  | 0 => NavTracker.default
  | n + 1 => (c3Tracker n).on_page_change n (n + 1)

/-- The prefetch plan rebuilt after command `n` of the scenario (cursor is
page `n`, 50-page document, zoom 1.0, default policy). -/
def c3Plan (n : Nat) : List RenderTask :=
  build_prefetch_plan n (c3Tracker n).intent 50

/-! ## src/render/worker.rs : RenderWorker pool -/

/-- `InFlightTask`. -/
structure InFlightTask where
  task_id : Nat
  priority : RenderPriority
  generation : Nat
  canceled : Bool
deriving DecidableEq

/-- The supervisor-visible state of `RenderWorker` (channels and join handles
carry no state observable by the claims; the request send to the unbounded
channel succeeds while the pool is alive). -/
structure RenderWorker where
  in_flight : List (RenderedPageKey × InFlightTask)
  worker_threads : Nat
  next_task_id : Nat
deriving DecidableEq

/-- `RenderWorker::spawn` (state part). -/
def RenderWorker.spawn (worker_threads : Nat) : RenderWorker :=
  { in_flight := [], worker_threads := max worker_threads 1, next_task_id := 1 }

/-- `RenderWorker::enqueue`. -/
def RenderWorker.enqueue (w : RenderWorker) (task : RenderTask) : Bool × RenderWorker :=
  if containsKey (RenderedPageKey.new task.doc_id task.page task.scale) w.in_flight = true
      ∨ w.worker_threads ≤ w.in_flight.length then
    (false, w)
  else
    (true,
      { w with
          next_task_id := satSucc w.next_task_id
          in_flight := w.in_flight ++
            [(RenderedPageKey.new task.doc_id task.page task.scale,
              { task_id := w.next_task_id, priority := task.priority,
                generation := task.generation, canceled := false })] })

/-- The preemption rank tuple `(stale_rank, class_rank, generation, task_id)`. -/
def preemptRank (current_generation : Nat) (classRank : Nat) (e : InFlightTask) :
    Nat × Nat × Nat × Nat :=
  ((if e.generation < current_generation then 0 else 1), classRank, e.generation, e.task_id)

/-- Strict lexicographic order on preemption rank tuples. -/
def rankLtB (a b : Nat × Nat × Nat × Nat) : Bool :=
  decide (a.1 < b.1)
  || (decide (a.1 = b.1) && (decide (a.2.1 < b.2.1)
      || (decide (a.2.1 = b.2.1) && (decide (a.2.2.1 < b.2.2.1)
          || (decide (a.2.2.1 = b.2.2.1) && decide (a.2.2.2 < b.2.2.2))))))

/-- The `filter_map` stage of `select_preemptable_prefetch`: the preemption
candidates with their rank tuples (`keep_key` and the protected classes are
excluded). -/
def preemptCandidates (w : RenderWorker) (current_generation : Nat)
    (keep_key : RenderedPageKey) : List ((Nat × Nat × Nat × Nat) × RenderedPageKey) :=
  w.in_flight.filterMap (fun e =>
    if e.1 = keep_key then none
    else match e.2.priority with
      | .background => some (preemptRank current_generation 0 e.2, e.1)
      | .directionalLead => some (preemptRank current_generation 1 e.2, e.1)
      | _ => none)

/-- `Iterator::min_by_key`: the first element with minimal key. -/
def minByRank (l : List ((Nat × Nat × Nat × Nat) × RenderedPageKey)) :
    Option ((Nat × Nat × Nat × Nat) × RenderedPageKey) :=
  match l with
  | [] => none
  | x :: xs => some (xs.foldl (fun best y => if rankLtB y.1 best.1 then y else best) x)

/-- `RenderWorker::select_preemptable_prefetch`. -/
def RenderWorker.select_preemptable_prefetch (w : RenderWorker)
    (current_generation : Nat) (keep_key : RenderedPageKey) : Option RenderedPageKey :=
  (minByRank (preemptCandidates w current_generation keep_key)).map (fun r => r.2)

/-- `entry.canceled = true` written through the `get_mut` reference. -/
def markCanceled (key : RenderedPageKey) (l : List (RenderedPageKey × InFlightTask)) :
    List (RenderedPageKey × InFlightTask) :=
  l.map (fun p => if p.1 = key then (p.1, { p.2 with canceled := true }) else p)

/-- `RenderWorker::preempt_inflight`: mark the entry canceled unless it is
missing or already canceled. -/
def RenderWorker.preempt_inflight (w : RenderWorker) (key : RenderedPageKey) :
    Bool × RenderWorker :=
  match lookupKey key w.in_flight with
  | none => (false, w)
  | some e =>
    if e.canceled = true then (false, w)
    else (true, { w with in_flight := markCanceled key w.in_flight })

/-- `RenderWorker::enqueue_current_with_preemption`. -/
def RenderWorker.enqueue_current_with_preemption (w : RenderWorker) (task : RenderTask)
    (current_generation : Nat) (keep_key : RenderedPageKey) :
    (Bool × Nat) × RenderWorker :=
  if containsKey (RenderedPageKey.new task.doc_id task.page task.scale) w.in_flight
      = true then ((true, 0), w)
  else if w.worker_threads ≤ w.in_flight.length then
    match w.select_preemptable_prefetch current_generation keep_key with
    | none => ((false, 0), w)
    | some victim_key =>
      ((false, if (w.preempt_inflight victim_key).1 then 1 else 0),
        (w.preempt_inflight victim_key).2)
  else (((w.enqueue task).1, 0), (w.enqueue task).2)

/-- `RenderWorkerResult` (elapsed time abstracted to a `Nat`; the render
outcome abstracted to success with a frame or an error message). -/
inductive RenderOutcome where
  | ok (frame : RgbaFrame)
  | err (message : String)
deriving DecidableEq

/-- `RenderResultEvent`. -/
structure RenderResultEvent where
  task_id : Nat
  key : RenderedPageKey
  priority : RenderPriority
  generation : Nat
  result : RenderOutcome
  elapsed : Nat
deriving DecidableEq

/-- `RenderWorkerResult`. -/
structure RenderWorkerResult where
  key : RenderedPageKey
  priority : RenderPriority
  generation : Nat
  result : RenderOutcome
  elapsed : Nat
deriving DecidableEq

/-- `RenderWorker::accept_result_event`: remove the in-flight entry for the
key first (`?` on `HashMap::remove`), then gate on task id and cancellation. -/
def RenderWorker.accept_result_event (w : RenderWorker) (ev : RenderResultEvent) :
    Option RenderWorkerResult × RenderWorker :=
  match removeKey ev.key w.in_flight with
  | (none, _) => (none, w)
  | (some entry, rest) =>
    let w1 := { w with in_flight := rest }
    if entry.task_id ≠ ev.task_id ∨ entry.canceled = true then (none, w1)
    else
      (some { key := ev.key, priority := ev.priority, generation := ev.generation,
              result := ev.result, elapsed := ev.elapsed }, w1)

/-- Number of canceled in-flight entries. -/
def canceledCount (w : RenderWorker) : Nat :=
  (w.in_flight.filter (fun e => e.2.canceled)).length

/-! ## src/presenter/encode.rs : queue admission -/

/-- `ratatui::layout::Rect`. -/
structure Rect where
  x : Nat
  y : Nat
  width : Nat
  height : Nat
deriving DecidableEq

/-- `EncodeWorkerTask`; the `Picker` is an external opaque handle, modelled by
an identifier. -/
structure EncodeWorkerTask where
  key : TerminalFrameKey
  picker : Nat
  frame : RgbaFrame
  area : Rect
deriving DecidableEq

/-- The `Encode` variant of `EncodeWorkerRequest` (the `Shutdown` variant ends
the worker loop and reaches no queue). -/
structure EncodeRequest where
  key : TerminalFrameKey
  picker : Nat
  frame : RgbaFrame
  area : Rect
  cls : PrefetchClass
  generation : Nat
deriving DecidableEq

/-- `EncodeWorkerEvent`. -/
inductive EncodeWorkerEvent where
  | completed (key : TerminalFrameKey) (succeeded : Bool)
  | canceledStale (key : TerminalFrameKey)
deriving DecidableEq

/-- `cancel_stale_prefetch_with_keys`: a retain that also reports the removed
keys, in removal (heap pop) order. -/
def cancel_stale_prefetch_with_keys (q : PrefetchQueue TerminalFrameKey EncodeWorkerTask)
    (generation : Nat) : List TerminalFrameKey × PrefetchQueue TerminalFrameKey EncodeWorkerTask :=
  let r := q.retain (fun _ meta => staleKeep generation meta)
  (((popAllTasks q.tasks).filter
      (fun t => staleKeep generation t.meta = false)).map (fun t => t.meta.key),
    r.2)

/-- `enqueue_with_notifications`: stale cancellation with one `CanceledStale`
event per removal, then the critical-current dedupe removal, then the push. -/
def enqueue_with_notifications (req : EncodeRequest)
    (q : PrefetchQueue TerminalFrameKey EncodeWorkerTask) :
    List EncodeWorkerEvent × PrefetchQueue TerminalFrameKey EncodeWorkerTask :=
  let canceled := cancel_stale_prefetch_with_keys q req.generation
  let events := canceled.1.map (fun k => EncodeWorkerEvent.canceledStale k)
  let q1 := canceled.2
  let q2 :=
    if req.cls = PrefetchClass.criticalCurrent ∧ q1.containsKeyQ req.key = true then
      (q1.retain (fun _ meta => decide (meta.key ≠ req.key))).2
    else q1
  let task : EncodeWorkerTask :=
    { key := req.key, picker := req.picker, frame := req.frame, area := req.area }
  let meta : QueueTaskMeta TerminalFrameKey :=
    { key := req.key, cls := req.cls, generation := req.generation }
  (events, (q2.push task meta).2)

/-! ## src/config.rs -/

/-- `RenderConfig`. -/
structure RenderConfig where
  worker_threads : Nat
  input_poll_timeout_idle_ms : Nat
  input_poll_timeout_busy_ms : Nat
  prefetch_pause_ms : Nat
  prefetch_tick_ms : Nat
  pending_redraw_interval_ms : Nat
  prefetch_dispatch_budget_per_tick : Nat
  max_render_scale : F32
deriving DecidableEq

/-- `RenderConfig::default`. -/
def RenderConfig.default : RenderConfig :=
  { worker_threads := 3
    input_poll_timeout_idle_ms := 16
    input_poll_timeout_busy_ms := 8
    prefetch_pause_ms := 120
    prefetch_tick_ms := 8
    pending_redraw_interval_ms := 33
    prefetch_dispatch_budget_per_tick := 6
    max_render_scale := .finite (5 / 2) }

/-- `CacheConfig`. -/
structure CacheConfig where
  l1_memory_budget_mb : Nat
  l2_memory_budget_mb : Nat
  l1_max_entries : Nat
  l2_max_entries : Nat
deriving DecidableEq

/-- `CacheConfig::default`. -/
def CacheConfig.default : CacheConfig :=
  { l1_memory_budget_mb := 512, l2_memory_budget_mb := 64,
    l1_max_entries := 128, l2_max_entries := 96 }

/-- `KeymapConfig`. -/
structure KeymapConfig where
  preset : String
deriving DecidableEq

/-- `Config`. -/
structure Config where
  render : RenderConfig
  cache : CacheConfig
  keymap : KeymapConfig
deriving DecidableEq

/-- `Config::sanitized`. -/
def Config.sanitized (c : Config) : Config :=
  { c with render :=
    { c.render with
        worker_threads := max c.render.worker_threads 1
        input_poll_timeout_idle_ms := max c.render.input_poll_timeout_idle_ms 1
        input_poll_timeout_busy_ms := max c.render.input_poll_timeout_busy_ms 1
        prefetch_pause_ms := max c.render.prefetch_pause_ms 1
        prefetch_tick_ms := max c.render.prefetch_tick_ms 1
        pending_redraw_interval_ms := max c.render.pending_redraw_interval_ms 1
        prefetch_dispatch_budget_per_tick := max c.render.prefetch_dispatch_budget_per_tick 1
        max_render_scale :=
          if c.render.max_render_scale.isFinite = false
              ∨ F32.ltB c.render.max_render_scale (.finite 1) = true then
            RenderConfig.default.max_render_scale
          else c.render.max_render_scale } }

/-- A parsed config with `worker_threads = 0` and `max_render_scale = 0.5`
(both values the repository's own config test exercises). -/
def c9Cfg : Config :=
  { render := { RenderConfig.default with
                  worker_threads := 0
                  max_render_scale := .finite (1 / 2) }
    cache := CacheConfig.default
    keymap := { preset := "default" } }

/-- A frame of exactly `n` bytes. -/
def c5Frame (n : Nat) : RgbaFrame :=
  { width := 1, height := 1, pixels := List.replicate n 0 }

/-- Page key at scale 1.0 used by the §8 scenario-3 trace. -/
def c5Key (page : Nat) : RenderedPageKey :=
  { doc_id := 1, page := page, scale_milli := 1000 }

/-- §8 scenario 3, step 1: insert frame A (64 bytes) into an L1 cache with
`max_entries = 4` and a 100-byte budget. -/
def c5Step1 : Bool × RenderedPageCache :=
  (RenderedPageCache.new 4 100).insert (c5Key 0) (c5Frame 64) false

/-- Step 2: attempt frame B (256 bytes) without the oversize override. -/
def c5Step2 : Bool × RenderedPageCache :=
  c5Step1.2.insert (c5Key 1) (c5Frame 256) false

/-- Step 3: retry frame B with the override. -/
def c5Step3 : Bool × RenderedPageCache :=
  c5Step2.2.insert (c5Key 1) (c5Frame 256) true

/-- Step 4: attempt frame C (16 bytes) without the override. -/
def c5Step4 : Bool × RenderedPageCache :=
  c5Step3.2.insert (c5Key 2) (c5Frame 16) false

/-- A render task for worker-pool fixtures (doc 1, scale 1.0). -/
def wTask (page : Nat) (prio : RenderPriority) (gen : Nat) : RenderTask :=
  { doc_id := 1, page := page, scale := .finite 1, priority := prio,
    generation := gen, reason := "test" }

/-- The page key of `wTask page _ _`. -/
def wKey (page : Nat) : RenderedPageKey := RenderedPageKey.new 1 page (.finite 1)

/-- A two-thread pool saturated with the current page (critical, task 1) and a
background prefetch (task 2). -/
def c6Worker : RenderWorker :=
  (((RenderWorker.spawn 2).enqueue (wTask 0 .criticalCurrent 1)).2.enqueue
    (wTask 1 .background 1)).2

/-- A result event matching in-flight task 1. -/
def c6EventGood : RenderResultEvent :=
  { task_id := 1, key := wKey 0, priority := .criticalCurrent, generation := 1,
    result := .ok (c5Frame 4), elapsed := 1 }

/-- A result event for the key of task 1 but with a mismatched task id. -/
def c6EventStale : RenderResultEvent :=
  { task_id := 99, key := wKey 0, priority := .criticalCurrent, generation := 1,
    result := .ok (c5Frame 4), elapsed := 1 }

/-- A one-thread pool whose only in-flight entry is CriticalCurrent: saturated
with no legal preemption victim. -/
def c4WorkerAllCritical : RenderWorker :=
  ((RenderWorker.spawn 1).enqueue (wTask 0 .criticalCurrent 1)).2

/-! ## Reachability predicates -/

/-- The queue content in insertion order: ordinals strictly increase along the
list.  `push` appends with ordinal `next_ordinal`, which exceeds every resident
ordinal until the `u64` counter saturates, so this holds on every queue built
by fewer than `2^64` pushes. -/
def ordinalsIncreasing {K T : Type} (l : List (QueuedTask K T)) : Prop :=
  l.Pairwise (fun a b => a.ordinal < b.ordinal)

/-- Pairwise-distinct ordinals: the part of `ordinalsIncreasing` that survives
`retain`'s heap-order rebuild, and all that heap determinism needs. -/
def ordinalsDistinct {K T : Type} (l : List (QueuedTask K T)) : Prop :=
  l.Pairwise (fun a b => a.ordinal ≠ b.ordinal)

/-- The `queued_keys` mirror of a dedupe queue agrees with the queued tasks
(`HashSet` consistency, maintained by every queue operation). -/
def QueueKeysConsistent {K T : Type} (q : PrefetchQueue K T) : Prop :=
  (∀ k ∈ q.queued_keys, ∃ t ∈ q.tasks, t.meta.key = k)
  ∧ (∀ t ∈ q.tasks, t.meta.key ∈ q.queued_keys)

instance {K T : Type} (l : List (QueuedTask K T)) : Decidable (ordinalsIncreasing l) := by
  unfold ordinalsIncreasing
  infer_instance

instance {K T : Type} (l : List (QueuedTask K T)) : Decidable (ordinalsDistinct l) := by
  unfold ordinalsDistinct
  infer_instance

instance {K T : Type} [DecidableEq K] (q : PrefetchQueue K T) :
    Decidable (QueueKeysConsistent q) := by
  unfold QueueKeysConsistent
  infer_instance

/-- A terminal-frame key fixture. -/
def tfKey (page : Nat) : TerminalFrameKey :=
  { rendered_page := c5Key page
    viewport := { x := 0, y := 0, width := 10, height := 6 }
    pan := { cells_x := 0, cells_y := 0 } }

/-- A cell rectangle fixture. -/
def rect0 : Rect := { x := 0, y := 0, width := 10, height := 6 }

/-- An encoder queue holding one DirectionalLead task for `tfKey 1` at
generation 5. -/
def c8Queue : PrefetchQueue TerminalFrameKey EncodeWorkerTask :=
  ((PrefetchQueue.new PrefetchQueueConfig.default).push
    { key := tfKey 1, picker := 0, frame := c5Frame 4, area := rect0 }
    { key := tfKey 1, cls := .directionalLead, generation := 5 }).2

/-- A DirectionalLead encode request for the already-queued key, generation 3. -/
def c8Req : EncodeRequest :=
  { key := tfKey 1, picker := 0, frame := c5Frame 4, area := rect0,
    cls := .directionalLead, generation := 3 }

/-- A CriticalCurrent encode request for the queued key, generation 6. -/
def c8ReqCrit : EncodeRequest :=
  { key := tfKey 1, picker := 0, frame := c5Frame 4, area := rect0,
    cls := .criticalCurrent, generation := 6 }

/-- A queue built by five pushes mirroring the repository's pop-order test
(two DirectionalLead items share class and generation to exercise FIFO). -/
def c2Queue : PrefetchQueue Nat Nat :=
  let q0 : PrefetchQueue Nat Nat := PrefetchQueue.new PrefetchQueueConfig.default
  let q1 := (q0.push 1 { key := 1, cls := .background, generation := 5 }).2
  let q2 := (q1.push 2 { key := 2, cls := .directionalLead, generation := 1 }).2
  let q3 := (q2.push 3 { key := 3, cls := .directionalLead, generation := 1 }).2
  let q4 := (q3.push 4 { key := 4, cls := .guardReverse, generation := 1 }).2
  (q4.push 5 { key := 5, cls := .criticalCurrent, generation := 1 }).2

/-- `HashMap` key uniqueness for the in-flight table. -/
def inFlightKeysNodup (w : RenderWorker) : Prop :=
  (w.in_flight.map (fun e => e.1)).Nodup

instance (w : RenderWorker) : Decidable (inFlightKeysNodup w) := by
  unfold inFlightKeysNodup
  infer_instance

/-! ## Association-list lemmas -/

theorem lookupKey_mem {K V : Type} [DecidableEq K] {k : K} {v : V} :
    ∀ {l : List (K × V)}, lookupKey k l = some v → (k, v) ∈ l := by
  intro l
  induction l with
  | nil => intro h; simp [lookupKey] at h
  | cons e rest ih =>
    intro h
    by_cases he : e.1 = k
    · simp only [lookupKey] at h
      rw [if_pos he] at h
      have hev : e = (k, v) := Prod.ext he (Option.some_inj.mp h)
      rw [← hev]
      exact List.mem_cons_self e rest
    · simp only [lookupKey] at h
      rw [if_neg he] at h
      exact List.mem_cons_of_mem _ (ih h)

theorem lookupKey_none_iff {K V : Type} [DecidableEq K] {k : K} :
    ∀ {l : List (K × V)}, lookupKey k l = none ↔ ∀ v, (k, v) ∉ l := by
  intro l
  induction l with
  | nil => simp [lookupKey]
  | cons e rest ih =>
    constructor
    · intro h v hv
      simp only [lookupKey] at h
      by_cases he : e.1 = k
      · rw [if_pos he] at h; exact Option.noConfusion h
      · rw [if_neg he] at h
        rcases List.mem_cons.mp hv with h1 | h1
        · exact he (by rw [← h1])
        · exact (ih.mp h) v h1
    · intro h
      simp only [lookupKey]
      by_cases he : e.1 = k
      · exact absurd (show (k, e.2) ∈ e :: rest by
          rw [show (k, e.2) = e from Prod.ext he.symm rfl]
          exact List.mem_cons_self e rest) (h e.2)
      · rw [if_neg he]
        exact ih.mpr (fun v hv => h v (List.mem_cons_of_mem _ hv))

theorem removeKey_none {K V : Type} [DecidableEq K] {k : K} :
    ∀ {l : List (K × V)}, lookupKey k l = none → removeKey k l = (none, l) := by
  intro l
  induction l with
  | nil => intro _; rfl
  | cons e rest ih =>
    intro h
    simp only [lookupKey] at h
    by_cases he : e.1 = k
    · rw [if_pos he] at h; exact Option.noConfusion h
    · rw [if_neg he] at h
      simp only [removeKey]
      rw [if_neg he, ih h]

theorem removeKey_some {K V : Type} [DecidableEq K] {k : K} {v : V} :
    ∀ {l : List (K × V)}, lookupKey k l = some v →
      (removeKey k l).1 = some v
      ∧ l.Perm ((k, v) :: (removeKey k l).2)
      ∧ (removeKey k l).2.length + 1 = l.length := by
  intro l
  induction l with
  | nil => intro h; simp [lookupKey] at h
  | cons e rest ih =>
    intro h
    simp only [lookupKey] at h
    by_cases he : e.1 = k
    · rw [if_pos he] at h
      have hev : e = (k, v) := Prod.ext he (Option.some_inj.mp h)
      simp only [removeKey, if_pos he]
      refine ⟨h, ?_, by simp⟩
      rw [hev]
    · rw [if_neg he] at h
      obtain ⟨h1, h2, h3⟩ := ih h
      simp only [removeKey, if_neg he]
      refine ⟨h1, ?_, by simpa using h3⟩
      exact (List.Perm.cons e h2).trans (List.Perm.swap (k, v) e (removeKey k rest).2)

theorem removeKey_sublist {K V : Type} [DecidableEq K] (k : K) :
    ∀ (l : List (K × V)), (removeKey k l).2.Sublist l := by
  intro l
  induction l with
  | nil => simp [removeKey]
  | cons e rest ih =>
    simp only [removeKey]
    by_cases he : e.1 = k
    · rw [if_pos he]; exact (List.sublist_cons_self e rest)
    · rw [if_neg he]; exact List.Sublist.cons₂ e ih

theorem removeKey_keys_subset {K V : Type} [DecidableEq K] (k : K) :
    ∀ (l : List (K × V)), ((removeKey k l).2.map Prod.fst).Sublist (l.map Prod.fst) :=
  fun l => List.Sublist.map Prod.fst (removeKey_sublist k l)

theorem lookupKey_removeKey_self {K V : Type} [DecidableEq K] {k : K} :
    ∀ {l : List (K × V)}, (l.map Prod.fst).Nodup →
      lookupKey k (removeKey k l).2 = none := by
  intro l
  induction l with
  | nil => intro _; rfl
  | cons e rest ih =>
    intro hnd
    simp only [List.map_cons, List.nodup_cons] at hnd
    simp only [removeKey]
    by_cases he : e.1 = k
    · rw [if_pos he]
      rw [lookupKey_none_iff]
      intro v hv
      refine hnd.1 ?_
      rw [he]
      exact List.mem_map_of_mem Prod.fst hv
    · rw [if_neg he]
      simp only [lookupKey]
      rw [if_neg he]
      exact ih hnd.2

theorem sumValBy_perm {K V : Type} (f : V → Nat) {l₁ l₂ : List (K × V)}
    (h : l₁.Perm l₂) : sumValBy f l₁ = sumValBy f l₂ :=
  List.Perm.sum_eq (List.Perm.map _ h)

theorem sumValBy_cons {K V : Type} (f : V → Nat) (e : K × V) (l : List (K × V)) :
    sumValBy f (e :: l) = f e.2 + sumValBy f l := by
  simp [sumValBy]

theorem sumValBy_append {K V : Type} (f : V → Nat) (l₁ l₂ : List (K × V)) :
    sumValBy f (l₁ ++ l₂) = sumValBy f l₁ + sumValBy f l₂ := by
  simp [sumValBy]

theorem mem_le_sumValBy {K V : Type} (f : V → Nat) {e : K × V} {l : List (K × V)}
    (h : e ∈ l) : f e.2 ≤ sumValBy f l := by
  induction l with
  | nil => simp at h
  | cons x xs ih =>
    rw [sumValBy_cons]
    rcases List.mem_cons.mp h with h1 | h1
    · rw [h1]; exact Nat.le_add_right _ _
    · exact Nat.le_trans (ih h1) (Nat.le_add_left _ _)

theorem sumValBy_dropLast {K V : Type} (f : V → Nat) {l : List (K × V)} {e : K × V}
    (h : l.getLast? = some e) : sumValBy f l = sumValBy f l.dropLast + f e.2 := by
  have hne : l ≠ [] := by
    intro hnil; rw [hnil] at h; simp at h
  have hsplit := List.dropLast_append_getLast hne
  have hlast : l.getLast hne = e := by
    have := List.getLast?_eq_getLast l hne
    rw [this] at h
    exact Option.some_inj.mp h
  conv_lhs => rw [← hsplit]
  rw [sumValBy_append, hlast]
  simp [sumValBy]

/-! ## C9 : config sanitization -/

/-- C9 counterexample: `Config::sanitized` does not keep every positive finite
value and does not restore zeroes to their defaults.  On a parsed config with
`max_render_scale = 0.5` (finite and greater than 0) the sanitizer replaces it
with the default 2.5 instead of keeping it, and `worker_threads = 0` is
clamped to 1, not restored to the default 3. -/
theorem claim_c9_counterexample :
    (c9Cfg.render.max_render_scale = F32.finite (1 / 2)
      ∧ (F32.finite (1 / 2)).isFinite = true
      ∧ F32.ltB (F32.finite 0) (F32.finite (1 / 2)) = true
      ∧ c9Cfg.sanitized.render.max_render_scale = F32.finite (5 / 2)
      ∧ F32.finite (5 / 2) ≠ F32.finite (1 / 2))
    ∧ (c9Cfg.render.worker_threads = 0
      ∧ c9Cfg.sanitized.render.worker_threads = 1
      ∧ RenderConfig.default.worker_threads = 3) := by
  constructor
  · refine ⟨rfl, rfl, by norm_num [F32.ltB], ?_, by norm_num⟩
    show (if (F32.finite (1 / 2)).isFinite = false
        ∨ F32.ltB (F32.finite (1 / 2)) (.finite 1) = true then
          RenderConfig.default.max_render_scale
        else F32.finite (1 / 2)) = F32.finite (5 / 2)
    rw [if_pos]
    · rfl
    · right
      norm_num [F32.ltB]
  · exact ⟨rfl, rfl, rfl⟩

/-- C9 (amended): `Config::sanitized` clamps every `usize` field and every
duration field to at least 1 (zeroes become 1, not the field's default), keeps
`max_render_scale` exactly when it is finite and at least 1.0, and otherwise
replaces it with the default 2.5; the cache and keymap sections are untouched. -/
theorem claim_c9_sanitize (c : Config) :
    (c.sanitized.render.worker_threads = max c.render.worker_threads 1
      ∧ 1 ≤ c.sanitized.render.worker_threads)
    ∧ (c.sanitized.render.input_poll_timeout_idle_ms = max c.render.input_poll_timeout_idle_ms 1
      ∧ 1 ≤ c.sanitized.render.input_poll_timeout_idle_ms)
    ∧ (c.sanitized.render.input_poll_timeout_busy_ms = max c.render.input_poll_timeout_busy_ms 1
      ∧ 1 ≤ c.sanitized.render.input_poll_timeout_busy_ms)
    ∧ (c.sanitized.render.prefetch_pause_ms = max c.render.prefetch_pause_ms 1
      ∧ 1 ≤ c.sanitized.render.prefetch_pause_ms)
    ∧ (c.sanitized.render.prefetch_tick_ms = max c.render.prefetch_tick_ms 1
      ∧ 1 ≤ c.sanitized.render.prefetch_tick_ms)
    ∧ (c.sanitized.render.pending_redraw_interval_ms = max c.render.pending_redraw_interval_ms 1
      ∧ 1 ≤ c.sanitized.render.pending_redraw_interval_ms)
    ∧ (c.sanitized.render.prefetch_dispatch_budget_per_tick
        = max c.render.prefetch_dispatch_budget_per_tick 1
      ∧ 1 ≤ c.sanitized.render.prefetch_dispatch_budget_per_tick)
    ∧ (c.sanitized.render.max_render_scale =
        if c.render.max_render_scale.isFinite = false
            ∨ F32.ltB c.render.max_render_scale (F32.finite 1) = true then F32.finite (5 / 2)
        else c.render.max_render_scale)
    ∧ c.sanitized.cache = c.cache
    ∧ c.sanitized.keymap = c.keymap := by
  refine ⟨⟨rfl, ?_⟩, ⟨rfl, ?_⟩, ⟨rfl, ?_⟩, ⟨rfl, ?_⟩, ⟨rfl, ?_⟩, ⟨rfl, ?_⟩, ⟨rfl, ?_⟩,
    ?_, rfl, rfl⟩
  · exact Nat.le_max_right _ _
  · exact Nat.le_max_right _ _
  · exact Nat.le_max_right _ _
  · exact Nat.le_max_right _ _
  · exact Nat.le_max_right _ _
  · exact Nat.le_max_right _ _
  · exact Nat.le_max_right _ _
  · show (if _ then RenderConfig.default.max_render_scale else _) = _
    split
    · rfl
    · rfl

/-! ## C5 : L1 oversize rejection is side-effect-free and sticky -/

set_option maxRecDepth 8000 in
/-- C5: an oversize insert without the override returns `false` and leaves
the cache untouched; while a lone oversize entry is resident, any
non-override insert for a different key also returns `false` and leaves the
cache untouched; and the §8 scenario-3 trace (A=64 rejected-B=256
override-B sole entry, C=16 rejected) holds literally. -/
theorem claim_c5_oversize_insert :
    (∀ (c : RenderedPageCache) (k : RenderedPageKey) (f : RgbaFrame),
      c.memory_budget_bytes < f.byte_len → c.insert k f false = (false, c))
    ∧ (∀ (c : RenderedPageCache) (k₀ : RenderedPageKey) (f₀ : RgbaFrame)
        (k : RenderedPageKey) (f : RgbaFrame),
      L1Inv c → c.entries = [(k₀, f₀)] → c.memory_budget_bytes < f₀.byte_len →
        k ≠ k₀ → c.insert k f false = (false, c))
    ∧ (c5Step1.1 = true
      ∧ c5Step2.1 = false
      ∧ containsKey (c5Key 0) c5Step2.2.entries = true
      ∧ c5Step2.2.entries.length = 1
      ∧ c5Step3.1 = true
      ∧ c5Step3.2.entries.length = 1
      ∧ containsKey (c5Key 1) c5Step3.2.entries = true
      ∧ containsKey (c5Key 0) c5Step3.2.entries = false
      ∧ c5Step4.1 = false
      ∧ containsKey (c5Key 1) c5Step4.2.entries = true
      ∧ c5Step4.2.entries.length = 1) := by
  refine ⟨?_, ?_, ?_⟩
  · intro c k f h
    unfold RenderedPageCache.insert
    rw [if_pos h, if_pos rfl]
  · intro c k₀ f₀ k f hinv hone hover hk
    have hmem : c.memory_budget_bytes < c.memory_bytes := by
      rw [hinv.1, hone]
      simpa [l1SumBytes, sumValBy] using hover
    unfold RenderedPageCache.insert
    by_cases hbig : c.memory_budget_bytes < f.byte_len
    · rw [if_pos hbig, if_pos rfl]
    · rw [if_neg hbig, if_pos]
      refine ⟨rfl, hmem, by rw [hone]; rfl, ?_, ?_⟩
      · rw [hone]
        simp only [lookupKey]
        rw [if_neg (fun h => hk h.symm)]
      · rw [hone]
        simp only [lastIsOversize, List.getLast?]
        exact decide_eq_true hover
  · exact ⟨rfl, by decide, by decide, by decide, by decide, by decide, by decide,
      by decide, by decide, by decide, by decide⟩

set_option maxRecDepth 8000 in
/-- C5 witness: the theorem applied at concrete inputs — a fresh 100-byte
cache rejects a 256-byte frame unchanged, and the scenario's lone-oversize
cache rejects a 16-byte frame for a different key unchanged. -/
theorem claim_c5_oversize_insert_witness :
    (RenderedPageCache.new 4 100).insert (c5Key 0) (c5Frame 256) false
        = (false, RenderedPageCache.new 4 100)
    ∧ c5Step3.2.insert (c5Key 2) (c5Frame 16) false = (false, c5Step3.2) := by
  constructor
  · exact claim_c5_oversize_insert.1 (RenderedPageCache.new 4 100) (c5Key 0)
      (c5Frame 256) (by decide)
  · exact claim_c5_oversize_insert.2.1 c5Step3.2 (c5Key 1) (c5Frame 256)
      (c5Key 2) (c5Frame 16) (by decide) (by decide) (by decide) (by decide)

/-! ## C3 : §8 scenario 1, forward streak depth growth -/

/-- C3 counterexample: after command 3 of the forward-streak scenario the plan
covers pages `[3, 4, 2, 5]` — page 1 is not in the plan, against the claimed
`{3,4,5,2,1}` — and after command 5 the Background task targets page 3
(cursor 5 minus guard-plus-one), not page 1. -/
theorem claim_c3_counterexample :
    ((c3Plan 3).map (fun t => t.page) = [3, 4, 2, 5]
      ∧ 1 ∉ (c3Plan 3).map (fun t => t.page))
    ∧ ((c3Plan 5).map (fun t => (t.page, t.priority))
        = [(5, .criticalCurrent), (6, .directionalLead), (4, .guardReverse),
           (7, .directionalLead), (8, .directionalLead), (3, .background)]
      ∧ ∀ t ∈ c3Plan 5, t.priority = RenderPriority.background → t.page = 3) := by
  decide

/-- C3 (amended): in the §8 forward-streak scenario (page 0, streak 0,
zoom 1.0, 50 pages, default policy), command 1 plans pages `{1,2,0}` as
Critical/Lead/Guard; command 3 reaches depth 2 with plan pages `{3,4,5,2}`
(page 1 has left the plan); command 5 reaches depth 3 and adds a Background
task for page 3; each command bumps the generation by exactly 1; and for the
default policy the plan depth is `min(max_depth, dynamic_depth(streak))` with
`dynamic_depth = 1 / 2 / 3` for streaks `≤1` / `2..4` / `≥5`. -/
theorem claim_c3_forward_streak :
    ((c3Plan 1).map (fun t => (t.page, t.priority))
        = [(1, .criticalCurrent), (2, .directionalLead), (0, .guardReverse)])
    ∧ (planDepth (c3Tracker 3).intent.streak PrefetchPolicy.default = 2
      ∧ (c3Plan 3).map (fun t => t.page) = [3, 4, 2, 5])
    ∧ (planDepth (c3Tracker 5).intent.streak PrefetchPolicy.default = 3
      ∧ (c3Plan 5).map (fun t => (t.page, t.priority))
          = [(5, .criticalCurrent), (6, .directionalLead), (4, .guardReverse),
             (7, .directionalLead), (8, .directionalLead), (3, .background)])
    ∧ ((List.range 5).map (fun n => (c3Tracker (n + 1)).generation) = [1, 2, 3, 4, 5])
    ∧ (∀ streak : Nat,
        planDepth streak PrefetchPolicy.default = min 3 (dynamic_depth streak)) := by
  refine ⟨by decide, by decide, by decide, by decide, ?_⟩
  intro streak
  simp [planDepth, PrefetchPolicy.default, Nat.min_comm]

/-! ## C6 / C10 : render-result acceptance -/

theorem filter_key_eq_of_nodup {K V : Type} [DecidableEq K] {k : K} {v : V} :
    ∀ {l : List (K × V)}, (l.map Prod.fst).Nodup → lookupKey k l = some v →
      l.filter (fun p => decide (p.1 = k)) = [(k, v)] := by
  intro l
  induction l with
  | nil => intro _ h; simp [lookupKey] at h
  | cons e rest ih =>
    intro hnd h
    simp only [List.map_cons, List.nodup_cons] at hnd
    simp only [lookupKey] at h
    by_cases he : e.1 = k
    · rw [if_pos he] at h
      have hev : e = (k, v) := Prod.ext he (Option.some_inj.mp h)
      rw [List.filter_cons_of_pos (by simpa using he)]
      have hrest : rest.filter (fun p => decide (p.1 = k)) = [] := by
        rw [List.filter_eq_nil_iff]
        intro p hp hpk
        refine hnd.1 ?_
        rw [he, ← of_decide_eq_true hpk]
        exact List.mem_map_of_mem Prod.fst hp
      rw [hrest, hev]
    · rw [if_neg he] at h
      rw [List.filter_cons_of_neg (by simpa using he)]
      exact ih hnd.2 h

/-- Unfolding of the acceptor when an in-flight entry exists for the key. -/
theorem accept_result_event_some {w : RenderWorker} {ev : RenderResultEvent}
    {e : InFlightTask} (h : lookupKey ev.key w.in_flight = some e) :
    w.accept_result_event ev =
      if e.task_id ≠ ev.task_id ∨ e.canceled = true then
        (none, { w with in_flight := (removeKey ev.key w.in_flight).2 })
      else
        (some { key := ev.key, priority := ev.priority, generation := ev.generation,
                result := ev.result, elapsed := ev.elapsed },
          { w with in_flight := (removeKey ev.key w.in_flight).2 }) := by
  have hr1 : (removeKey ev.key w.in_flight).1 = some e := (removeKey_some h).1
  have hr : removeKey ev.key w.in_flight
      = (some e, (removeKey ev.key w.in_flight).2) := by
    rw [← hr1]
  rw [RenderWorker.accept_result_event, hr]

/-- Unfolding of the acceptor when no in-flight entry exists for the key. -/
theorem accept_result_event_none {w : RenderWorker} {ev : RenderResultEvent}
    (h : lookupKey ev.key w.in_flight = none) :
    w.accept_result_event ev = (none, w) := by
  rw [RenderWorker.accept_result_event, removeKey_none h]

/-- C6: the acceptor returns a usable result exactly when the in-flight table
holds an entry for the event's key whose task id matches and which is not
canceled; an accepted result's entry is the unique entry for that key and is
gone afterwards; a task-id mismatch or a canceled entry yields `none`. -/
theorem claim_c6_result_acceptance (w : RenderWorker) (ev : RenderResultEvent)
    (hnd : inFlightKeysNodup w) :
    ((w.accept_result_event ev).1.isSome = true
      ↔ ∃ e, lookupKey ev.key w.in_flight = some e
          ∧ e.task_id = ev.task_id ∧ e.canceled = false)
    ∧ ((w.accept_result_event ev).1.isSome = true →
        (∃ e, w.in_flight.filter (fun p => decide (p.1 = ev.key)) = [(ev.key, e)]
            ∧ e.task_id = ev.task_id ∧ e.canceled = false)
        ∧ containsKey ev.key (w.accept_result_event ev).2.in_flight = false)
    ∧ (∀ e, lookupKey ev.key w.in_flight = some e →
        e.task_id ≠ ev.task_id ∨ e.canceled = true →
        (w.accept_result_event ev).1 = none) := by
  rcases hl : lookupKey ev.key w.in_flight with _ | e
  · rw [accept_result_event_none hl]
    refine ⟨?_, ?_, ?_⟩
    · refine iff_of_false (by simp) ?_
      rintro ⟨e, he, -, -⟩
      exact Option.noConfusion he
    · intro h; simp at h
    · intro e he _
      exact Option.noConfusion he
  · rw [accept_result_event_some hl]
    by_cases hok : e.task_id ≠ ev.task_id ∨ e.canceled = true
    · rw [if_pos hok]
      refine ⟨?_, ?_, ?_⟩
      · refine iff_of_false (by simp) ?_
        rintro ⟨e2, he2, h1, h2⟩
        obtain rfl := Option.some_inj.mp he2
        rcases hok with h | h
        · exact h h1
        · rw [h2] at h; exact Bool.noConfusion h
      · intro h; simp at h
      · intro _ _ _; rfl
    · rw [if_neg hok]
      push_neg at hok
      refine ⟨?_, ?_, ?_⟩
      · refine iff_of_true (by simp) ?_
        exact ⟨e, rfl, hok.1, by simpa using hok.2⟩
      · intro _
        constructor
        · exact ⟨e, filter_key_eq_of_nodup hnd hl, hok.1, by simpa using hok.2⟩
        · show containsKey ev.key (removeKey ev.key w.in_flight).2 = false
          unfold containsKey
          rw [lookupKey_removeKey_self hnd]
          rfl
      · intro e2 he2 hbad
        obtain rfl := Option.some_inj.mp he2
        rcases hbad with h | h
        · exact absurd hok.1 h
        · exact absurd h (by simpa using hok.2)

/-- C6 witness: on the saturated two-task pool, the matching event for task 1
is accepted (the entry for its key is unique and removed), and the
same-key event with task id 99 is rejected. -/
theorem claim_c6_result_acceptance_witness :
    ((c6Worker.accept_result_event c6EventGood).1.isSome = true
      ↔ ∃ e, lookupKey c6EventGood.key c6Worker.in_flight = some e
          ∧ e.task_id = c6EventGood.task_id ∧ e.canceled = false)
    ∧ inFlightKeysNodup c6Worker
    ∧ (∀ e, lookupKey c6EventStale.key c6Worker.in_flight = some e →
        e.task_id ≠ c6EventStale.task_id ∨ e.canceled = true →
        (c6Worker.accept_result_event c6EventStale).1 = none) :=
  ⟨(claim_c6_result_acceptance c6Worker c6EventGood (by decide)).1,
    by decide,
    (claim_c6_result_acceptance c6Worker c6EventStale (by decide)).2.2⟩

/-- C10: whenever the event's key has an in-flight entry, the acceptor removes
it from the table — also on the drop paths (canceled entry or task-id
mismatch) where it returns `none` — freeing the pool slot. -/
theorem claim_c10_drop_removes_entry (w : RenderWorker) (ev : RenderResultEvent)
    (hnd : inFlightKeysNodup w) (h : containsKey ev.key w.in_flight = true) :
    (w.accept_result_event ev).2.in_flight = (removeKey ev.key w.in_flight).2
    ∧ (w.accept_result_event ev).2.in_flight.length + 1 = w.in_flight.length
    ∧ containsKey ev.key (w.accept_result_event ev).2.in_flight = false := by
  rcases hl : lookupKey ev.key w.in_flight with _ | e
  · unfold containsKey at h
    rw [hl] at h
    exact Bool.noConfusion h
  · have hw : (w.accept_result_event ev).2
        = { w with in_flight := (removeKey ev.key w.in_flight).2 } := by
      rw [accept_result_event_some hl]
      split <;> rfl
    rw [hw]
    refine ⟨rfl, (removeKey_some hl).2.2, ?_⟩
    show containsKey ev.key (removeKey ev.key w.in_flight).2 = false
    unfold containsKey
    rw [lookupKey_removeKey_self hnd]
    rfl

/-! ## C4 : preemption under saturation -/

theorem rankLtB_iff (a b : Nat × Nat × Nat × Nat) :
    rankLtB a b = true ↔
      a.1 < b.1 ∨ (a.1 = b.1 ∧ (a.2.1 < b.2.1 ∨ (a.2.1 = b.2.1
        ∧ (a.2.2.1 < b.2.2.1 ∨ (a.2.2.1 = b.2.2.1 ∧ a.2.2.2 < b.2.2.2))))) := by
  simp [rankLtB]

theorem rankLtB_irrefl (a : Nat × Nat × Nat × Nat) : rankLtB a a = false := by
  cases h : rankLtB a a
  · rfl
  · have := (rankLtB_iff a a).mp h
    omega

theorem rankLtB_trans {a b c : Nat × Nat × Nat × Nat}
    (h1 : rankLtB a b = true) (h2 : rankLtB b c = true) : rankLtB a c = true := by
  rw [rankLtB_iff] at h1 h2 ⊢
  omega

theorem rankLtB_total {a b : Nat × Nat × Nat × Nat}
    (h : rankLtB a b = false) : rankLtB b a = true ∨ a = b := by
  have hab : ¬ (a.1 < b.1 ∨ (a.1 = b.1 ∧ (a.2.1 < b.2.1 ∨ (a.2.1 = b.2.1
      ∧ (a.2.2.1 < b.2.2.1 ∨ (a.2.2.1 = b.2.2.1 ∧ a.2.2.2 < b.2.2.2)))))) := by
    rw [← rankLtB_iff, h]
    simp
  by_cases hba : rankLtB b a = true
  · exact Or.inl hba
  · right
    have hba2 : ¬ (b.1 < a.1 ∨ (b.1 = a.1 ∧ (b.2.1 < a.2.1 ∨ (b.2.1 = a.2.1
        ∧ (b.2.2.1 < a.2.2.1 ∨ (b.2.2.1 = a.2.2.1 ∧ b.2.2.2 < a.2.2.2)))))) :=
      fun p => hba ((rankLtB_iff b a).mpr p)
    obtain ⟨a1, a2, a3, a4⟩ := a
    obtain ⟨b1, b2, b3, b4⟩ := b
    simp only [Prod.mk.injEq]
    simp only at hab hba2
    omega

/-- The fold inside `minByRank` returns an element of the list no element of
which is strictly smaller (`min_by_key` keeps the first minimum). -/
theorem foldlMin_spec (xs : List ((Nat × Nat × Nat × Nat) × RenderedPageKey)) :
    ∀ x, (xs.foldl (fun best y => if rankLtB y.1 best.1 then y else best) x) ∈ x :: xs
      ∧ ∀ y ∈ x :: xs,
        rankLtB y.1 (xs.foldl (fun best y => if rankLtB y.1 best.1 then y else best) x).1
          = false := by
  induction xs with
  | nil =>
    intro x
    refine ⟨List.mem_singleton_self x, ?_⟩
    intro y hy
    rw [List.mem_singleton.mp hy]
    exact rankLtB_irrefl x.1
  | cons z zs ih =>
    intro x
    simp only [List.foldl_cons]
    by_cases hz : rankLtB z.1 x.1 = true
    · rw [if_pos hz]
      obtain ⟨hm, hall⟩ := ih z
      refine ⟨?_, ?_⟩
      · exact List.mem_cons_of_mem x hm
      · intro y hy
        rcases List.mem_cons.mp hy with rfl | hy2
        · cases hyr : rankLtB y.1 (zs.foldl (fun best y =>
            if rankLtB y.1 best.1 then y else best) z).1 with
          | false => rfl
          | true =>
            have hcontra := rankLtB_trans hz hyr
            have := hall z (List.mem_cons_self z zs)
            rw [this] at hcontra
            exact Bool.noConfusion hcontra
        · exact hall y hy2
    · rw [if_neg hz]
      obtain ⟨hm, hall⟩ := ih x
      have hzf : rankLtB z.1 x.1 = false := Bool.not_eq_true _ ▸ Bool.of_not_eq_true hz
      refine ⟨?_, ?_⟩
      · rcases List.mem_cons.mp hm with heq | hm2
        · rw [heq]; exact List.mem_cons_self _ _
        · exact List.mem_cons_of_mem _ (List.mem_cons_of_mem _ hm2)
      · intro y hy
        rcases List.mem_cons.mp hy with rfl | hy2
        · exact hall y (List.mem_cons_self y zs)
        · rcases List.mem_cons.mp hy2 with rfl | hy3
          · cases hyr : rankLtB y.1 (zs.foldl (fun best y =>
              if rankLtB y.1 best.1 then y else best) x).1 with
            | false => rfl
            | true =>
              exfalso
              rcases rankLtB_total hzf with hxz | hxz
              · have := rankLtB_trans hxz hyr
                have hx := hall x (List.mem_cons_self x zs)
                rw [hx] at this
                exact Bool.noConfusion this
              · rw [hxz] at hyr
                have hx := hall x (List.mem_cons_self x zs)
                rw [hx] at hyr
                exact Bool.noConfusion hyr
          · exact hall y (List.mem_cons_of_mem x hy3)

/-- `minByRank` returns a member whose rank no candidate strictly undercuts. -/
theorem minByRank_spec {l : List ((Nat × Nat × Nat × Nat) × RenderedPageKey)}
    {r : (Nat × Nat × Nat × Nat) × RenderedPageKey} (h : minByRank l = some r) :
    r ∈ l ∧ ∀ y ∈ l, rankLtB y.1 r.1 = false := by
  cases l with
  | nil => exact Option.noConfusion h
  | cons x xs =>
    obtain ⟨hm, hall⟩ := foldlMin_spec xs x
    have hr : r = xs.foldl (fun best y => if rankLtB y.1 best.1 then y else best) x :=
      (Option.some_inj.mp h).symm
    rw [hr]
    exact ⟨hm, hall⟩

/-- Membership characterization of the preemption-candidate list. -/
theorem mem_preemptCandidates {w : RenderWorker} {g : Nat} {keep : RenderedPageKey}
    {rk : (Nat × Nat × Nat × Nat) × RenderedPageKey} :
    rk ∈ preemptCandidates w g keep ↔
      ∃ e, (rk.2, e) ∈ w.in_flight ∧ rk.2 ≠ keep
        ∧ ((e.priority = .background ∧ rk.1 = preemptRank g 0 e)
          ∨ (e.priority = .directionalLead ∧ rk.1 = preemptRank g 1 e)) := by
  unfold preemptCandidates
  rw [List.mem_filterMap]
  constructor
  · rintro ⟨⟨k, e⟩, hmem, hf⟩
    by_cases hk : k = keep
    · rw [if_pos hk] at hf; exact Option.noConfusion hf
    · rw [if_neg hk] at hf
      cases hp : e.priority with
      | background =>
        rw [hp] at hf
        obtain rfl := Option.some_inj.mp hf
        exact ⟨e, hmem, hk, Or.inl ⟨hp, rfl⟩⟩
      | directionalLead =>
        rw [hp] at hf
        obtain rfl := Option.some_inj.mp hf
        exact ⟨e, hmem, hk, Or.inr ⟨hp, rfl⟩⟩
      | criticalCurrent => rw [hp] at hf; exact Option.noConfusion hf
      | guardReverse => rw [hp] at hf; exact Option.noConfusion hf
  · rintro ⟨e, hmem, hk, hcase⟩
    refine ⟨(rk.2, e), hmem, ?_⟩
    rw [if_neg hk]
    rcases hcase with ⟨hp, hr⟩ | ⟨hp, hr⟩ <;>
      (rw [hp]; exact congrArg some (Prod.ext hr.symm rfl))

theorem lookupKey_markCanceled_ne {k v : RenderedPageKey}
    (hne : k ≠ v) : ∀ {l : List (RenderedPageKey × InFlightTask)},
      lookupKey k (markCanceled v l) = lookupKey k l := by
  intro l
  induction l with
  | nil => rfl
  | cons e rest ih =>
    simp only [markCanceled, List.map_cons]
    by_cases hev : e.1 = v
    · rw [if_pos hev]
      simp only [lookupKey]
      rw [if_neg (by rw [hev]; exact fun h => hne h.symm),
        if_neg (by rw [hev]; exact fun h => hne h.symm)]
      exact ih
    · rw [if_neg hev]
      simp only [lookupKey]
      by_cases hek : e.1 = k
      · rw [if_pos hek, if_pos hek]
      · rw [if_neg hek, if_neg hek]
        exact ih

theorem markCanceled_length (v : RenderedPageKey)
    (l : List (RenderedPageKey × InFlightTask)) :
    (markCanceled v l).length = l.length := by
  simp [markCanceled]

theorem markCanceled_id_of_not_mem {v : RenderedPageKey} :
    ∀ {l : List (RenderedPageKey × InFlightTask)}, v ∉ l.map Prod.fst →
      markCanceled v l = l := by
  intro l
  induction l with
  | nil => intro _; rfl
  | cons x rest ih =>
    intro hv
    simp only [List.map_cons, List.mem_cons, not_or] at hv
    simp only [markCanceled, List.map_cons]
    rw [if_neg (fun h => hv.1 h.symm)]
    have := ih (by intro h; exact hv.2 h)
    unfold markCanceled at this
    rw [this]

theorem markCanceled_canceled_filter {v : RenderedPageKey} {e : InFlightTask} :
    ∀ {l : List (RenderedPageKey × InFlightTask)}, (l.map Prod.fst).Nodup →
      lookupKey v l = some e → e.canceled = false →
      ((markCanceled v l).filter (fun p => p.2.canceled)).length
        = (l.filter (fun p => p.2.canceled)).length + 1 := by
  intro l
  induction l with
  | nil => intro _ h; exact fun _ => Option.noConfusion h
  | cons x rest ih =>
    intro hnd hl hc
    simp only [List.map_cons, List.nodup_cons] at hnd
    simp only [lookupKey] at hl
    by_cases hx : x.1 = v
    · rw [if_pos hx] at hl
      obtain rfl := Option.some_inj.mp hl
      simp only [markCanceled, List.map_cons, if_pos hx]
      have hrest : markCanceled v rest = rest :=
        markCanceled_id_of_not_mem (by rw [← hx]; exact hnd.1)
      unfold markCanceled at hrest
      rw [hrest]
      rw [List.filter_cons_of_pos (by simp), List.filter_cons_of_neg (by simp [hc])]
      simp
    · rw [if_neg hx] at hl
      simp only [markCanceled, List.map_cons, if_neg hx]
      have hih := ih hnd.2 hl hc
      unfold markCanceled at hih
      cases hxc : x.2.canceled with
      | false =>
        rw [List.filter_cons_of_neg (by simp [hxc]), List.filter_cons_of_neg (by simp [hxc])]
        exact hih
      | true =>
        rw [List.filter_cons_of_pos (by simp [hxc]), List.filter_cons_of_pos (by simp [hxc])]
        simp only [List.length_cons]
        rw [hih]

theorem mem_lookup_of_nodup {K V : Type} [DecidableEq K] {k : K} {v : V} :
    ∀ {l : List (K × V)}, (l.map Prod.fst).Nodup → (k, v) ∈ l →
      lookupKey k l = some v := by
  intro l
  induction l with
  | nil => intro _ h; simp at h
  | cons e rest ih =>
    intro hnd hm
    simp only [List.map_cons, List.nodup_cons] at hnd
    rcases List.mem_cons.mp hm with rfl | hm2
    · simp [lookupKey]
    · simp only [lookupKey]
      rw [if_neg ?_]
      · exact ih hnd.2 hm2
      · intro he
        refine hnd.1 ?_
        rw [he]
        exact List.mem_map_of_mem Prod.fst hm2

/-- C4 (amended): behaviour of `enqueue_current_with_preemption`.  A key
already in flight returns `(true, 0)` with no state change.  Under saturation
with the key absent: when no preemptable candidate exists the call returns
`(false, 0)` unchanged; when the ranked selection produces a victim, that
victim is an in-flight Background or DirectionalLead entry other than
`keep_key` (never CriticalCurrent or GuardReverse) of minimal
(stale-first, class-rank, generation, task id) tuple, and the call marks
exactly it canceled and returns `(false, 1)` — unless the victim was already
canceled, in which case it returns `(false, 0)` with no new cancellation.
Whenever `(false, p)` is returned, the `keep_key` entry is untouched, exactly
`p` entries are newly canceled, the table size is unchanged, and
`|in_flight| ≤ N` is preserved by every call. -/
theorem claim_c4_preemption (w : RenderWorker) (task : RenderTask)
    (g : Nat) (keep : RenderedPageKey) (hnd : inFlightKeysNodup w) :
    (containsKey (RenderedPageKey.new task.doc_id task.page task.scale) w.in_flight = true →
      w.enqueue_current_with_preemption task g keep = ((true, 0), w))
    ∧ (containsKey (RenderedPageKey.new task.doc_id task.page task.scale) w.in_flight = false →
        w.worker_threads ≤ w.in_flight.length →
        (w.select_preemptable_prefetch g keep = none →
          w.enqueue_current_with_preemption task g keep = ((false, 0), w))
        ∧ (∀ v, w.select_preemptable_prefetch g keep = some v →
            (∃ r e, (r, v) ∈ preemptCandidates w g keep
              ∧ lookupKey v w.in_flight = some e
              ∧ v ≠ keep
              ∧ (e.priority = .background ∨ e.priority = .directionalLead)
              ∧ e.priority ≠ .criticalCurrent ∧ e.priority ≠ .guardReverse
              ∧ (∀ y ∈ preemptCandidates w g keep, rankLtB y.1 r = false))
            ∧ (∀ e, lookupKey v w.in_flight = some e →
                (e.canceled = false →
                  w.enqueue_current_with_preemption task g keep
                    = ((false, 1), { w with in_flight := markCanceled v w.in_flight }))
                ∧ (e.canceled = true →
                  w.enqueue_current_with_preemption task g keep = ((false, 0), w)))))
    ∧ (∀ p, (w.enqueue_current_with_preemption task g keep).1 = (false, p) →
        lookupKey keep (w.enqueue_current_with_preemption task g keep).2.in_flight
            = lookupKey keep w.in_flight
        ∧ canceledCount (w.enqueue_current_with_preemption task g keep).2
            = canceledCount w + p
        ∧ (w.enqueue_current_with_preemption task g keep).2.in_flight.length
            = w.in_flight.length)
    ∧ (w.in_flight.length ≤ w.worker_threads →
        (w.enqueue_current_with_preemption task g keep).2.in_flight.length
          ≤ (w.enqueue_current_with_preemption task g keep).2.worker_threads) := by
  have hvictim : ∀ v, w.select_preemptable_prefetch g keep = some v →
      ∃ r e, (r, v) ∈ preemptCandidates w g keep
        ∧ lookupKey v w.in_flight = some e
        ∧ v ≠ keep
        ∧ (e.priority = .background ∨ e.priority = .directionalLead)
        ∧ e.priority ≠ .criticalCurrent ∧ e.priority ≠ .guardReverse
        ∧ (∀ y ∈ preemptCandidates w g keep, rankLtB y.1 r = false) := by
    intro v hsel
    unfold RenderWorker.select_preemptable_prefetch at hsel
    obtain ⟨rp, hmin, hrp2⟩ := Option.map_eq_some'.mp hsel
    obtain ⟨hmem, hall⟩ := minByRank_spec hmin
    obtain ⟨e, hin, hkne, hcase⟩ := mem_preemptCandidates.mp hmem
    refine ⟨rp.1, e, ?_, ?_, ?_, ?_, ?_, ?_, ?_⟩
    · rw [← hrp2]; exact hmem
    · rw [← hrp2]; exact mem_lookup_of_nodup hnd hin
    · rw [← hrp2]; exact hkne
    · rcases hcase with ⟨hp, -⟩ | ⟨hp, -⟩
      · exact Or.inl hp
      · exact Or.inr hp
    · rcases hcase with ⟨hp, -⟩ | ⟨hp, -⟩ <;> (rw [hp]; intro hx; exact RenderPriority.noConfusion hx)
    · rcases hcase with ⟨hp, -⟩ | ⟨hp, -⟩ <;> (rw [hp]; intro hx; exact RenderPriority.noConfusion hx)
    · exact hall
  refine ⟨?_, ?_, ?_, ?_⟩
  · intro h
    unfold RenderWorker.enqueue_current_with_preemption
    rw [if_pos h]
  · intro hck hsat
    constructor
    · intro hsel
      unfold RenderWorker.enqueue_current_with_preemption
      rw [if_neg (by rw [hck]; exact Bool.noConfusion), if_pos hsat]
      simp only [hsel]
    · intro v hsel
      refine ⟨hvictim v hsel, ?_⟩
      intro e hle
      have hpe : ∀ hres, w.preempt_inflight v = hres →
          RenderWorker.enqueue_current_with_preemption w task g keep
            = ((false, if hres.1 then 1 else 0), hres.2) := by
        intro hres heq
        unfold RenderWorker.enqueue_current_with_preemption
        rw [if_neg (by rw [hck]; exact Bool.noConfusion), if_pos hsat]
        simp only [hsel, heq]
      constructor
      · intro hc
        have hp : w.preempt_inflight v
            = (true, { w with in_flight := markCanceled v w.in_flight }) := by
          unfold RenderWorker.preempt_inflight
          simp only [hle]
          rw [if_neg (by rw [hc]; exact Bool.noConfusion)]
        rw [hpe _ hp]
        rfl
      · intro hc
        have hp : w.preempt_inflight v = (false, w) := by
          unfold RenderWorker.preempt_inflight
          simp only [hle]
          rw [if_pos hc]
        rw [hpe _ hp]
        rfl
  · intro p hp
    by_cases hck : containsKey (RenderedPageKey.new task.doc_id task.page task.scale)
        w.in_flight = true
    · have := congrArg Prod.fst ((by
        unfold RenderWorker.enqueue_current_with_preemption
        rw [if_pos hck] :
          w.enqueue_current_with_preemption task g keep = ((true, 0), w)))
      rw [hp] at this
      exact absurd (congrArg Prod.fst this) (by simp)
    · have hckf : containsKey (RenderedPageKey.new task.doc_id task.page task.scale)
          w.in_flight = false := by
        cases h : containsKey (RenderedPageKey.new task.doc_id task.page task.scale)
            w.in_flight
        · rfl
        · exact absurd h hck
      by_cases hsat : w.worker_threads ≤ w.in_flight.length
      · rcases hsel : w.select_preemptable_prefetch g keep with _ | v
        · have heq : w.enqueue_current_with_preemption task g keep = ((false, 0), w) := by
            unfold RenderWorker.enqueue_current_with_preemption
            rw [if_neg (by rw [hckf]; exact Bool.noConfusion), if_pos hsat]
            simp only [hsel]
          have hp0 : p = 0 := by
            rw [heq] at hp
            exact (Prod.mk.injEq _ _ _ _ |>.mp hp).2.symm
          rw [heq, hp0]
          exact ⟨rfl, by simp [canceledCount], rfl⟩
        · obtain ⟨r, e, hcand, hle, hkne, hbl, -, -, -⟩ := hvictim v hsel
          by_cases hc : e.canceled = true
          · have hq : w.preempt_inflight v = (false, w) := by
              unfold RenderWorker.preempt_inflight
              simp only [hle]
              rw [if_pos hc]
            have heq : w.enqueue_current_with_preemption task g keep = ((false, 0), w) := by
              unfold RenderWorker.enqueue_current_with_preemption
              rw [if_neg (by rw [hckf]; exact Bool.noConfusion), if_pos hsat]
              simp only [hsel, hq]
              rfl
            have hp0 : p = 0 := by
              rw [heq] at hp
              exact (Prod.mk.injEq _ _ _ _ |>.mp hp).2.symm
            rw [heq, hp0]
            exact ⟨rfl, by simp [canceledCount], rfl⟩
          · have hcf : e.canceled = false := by
              cases h : e.canceled
              · rfl
              · exact absurd h hc
            have hq : w.preempt_inflight v
                = (true, { w with in_flight := markCanceled v w.in_flight }) := by
              unfold RenderWorker.preempt_inflight
              simp only [hle]
              rw [if_neg (by rw [hcf]; exact Bool.noConfusion)]
            have heq : w.enqueue_current_with_preemption task g keep
                = ((false, 1), { w with in_flight := markCanceled v w.in_flight }) := by
              unfold RenderWorker.enqueue_current_with_preemption
              rw [if_neg (by rw [hckf]; exact Bool.noConfusion), if_pos hsat]
              simp only [hsel, hq]
              rfl
            have hp1 : p = 1 := by
              rw [heq] at hp
              exact (Prod.mk.injEq _ _ _ _ |>.mp hp).2.symm
            rw [heq, hp1]
            refine ⟨?_, ?_, ?_⟩
            · exact lookupKey_markCanceled_ne (fun h => hkne h.symm)
            · show ((markCanceled v w.in_flight).filter (fun p => p.2.canceled)).length
                = canceledCount w + 1
              exact markCanceled_canceled_filter hnd hle hcf
            · exact markCanceled_length v w.in_flight
      · have heq : w.enqueue_current_with_preemption task g keep
            = (((w.enqueue task).1, 0), (w.enqueue task).2) := by
          unfold RenderWorker.enqueue_current_with_preemption
          rw [if_neg (by rw [hckf]; exact Bool.noConfusion), if_neg hsat]
        have henq : w.enqueue task
            = (true,
                { w with
                    next_task_id := satSucc w.next_task_id
                    in_flight := w.in_flight ++
                      [(RenderedPageKey.new task.doc_id task.page task.scale,
                        { task_id := w.next_task_id, priority := task.priority,
                          generation := task.generation, canceled := false })] }) := by
          unfold RenderWorker.enqueue
          rw [if_neg ?_]
          intro hor
          rcases hor with h | h
          · rw [hckf] at h; exact Bool.noConfusion h
          · exact hsat h
        rw [heq, henq] at hp
        exact absurd (congrArg Prod.fst hp) (by simp)
  · intro hlen
    by_cases hck : containsKey (RenderedPageKey.new task.doc_id task.page task.scale)
        w.in_flight = true
    · have heq : w.enqueue_current_with_preemption task g keep = ((true, 0), w) := by
        unfold RenderWorker.enqueue_current_with_preemption
        rw [if_pos hck]
      rw [heq]
      exact hlen
    · have hckf : containsKey (RenderedPageKey.new task.doc_id task.page task.scale)
          w.in_flight = false := by
        cases h : containsKey (RenderedPageKey.new task.doc_id task.page task.scale)
            w.in_flight
        · rfl
        · exact absurd h hck
      by_cases hsat : w.worker_threads ≤ w.in_flight.length
      · rcases hsel : w.select_preemptable_prefetch g keep with _ | v
        · have heq : w.enqueue_current_with_preemption task g keep = ((false, 0), w) := by
            unfold RenderWorker.enqueue_current_with_preemption
            rw [if_neg (by rw [hckf]; exact Bool.noConfusion), if_pos hsat]
            simp only [hsel]
          rw [heq]
          exact hlen
        · obtain ⟨r, e, hcand, hle, hkne, hbl, -, -, -⟩ := hvictim v hsel
          by_cases hc : e.canceled = true
          · have hq : w.preempt_inflight v = (false, w) := by
              unfold RenderWorker.preempt_inflight
              simp only [hle]
              rw [if_pos hc]
            have heq : w.enqueue_current_with_preemption task g keep = ((false, 0), w) := by
              unfold RenderWorker.enqueue_current_with_preemption
              rw [if_neg (by rw [hckf]; exact Bool.noConfusion), if_pos hsat]
              simp only [hsel, hq]
              rfl
            rw [heq]
            exact hlen
          · have hcf : e.canceled = false := by
              cases h : e.canceled
              · rfl
              · exact absurd h hc
            have hq : w.preempt_inflight v
                = (true, { w with in_flight := markCanceled v w.in_flight }) := by
              unfold RenderWorker.preempt_inflight
              simp only [hle]
              rw [if_neg (by rw [hcf]; exact Bool.noConfusion)]
            have heq : w.enqueue_current_with_preemption task g keep
                = ((false, 1), { w with in_flight := markCanceled v w.in_flight }) := by
              unfold RenderWorker.enqueue_current_with_preemption
              rw [if_neg (by rw [hckf]; exact Bool.noConfusion), if_pos hsat]
              simp only [hsel, hq]
              rfl
            rw [heq]
            show (markCanceled v w.in_flight).length ≤ w.worker_threads
            rw [markCanceled_length]
            exact hlen
      · have henq : w.enqueue task
            = (true,
                { w with
                    next_task_id := satSucc w.next_task_id
                    in_flight := w.in_flight ++
                      [(RenderedPageKey.new task.doc_id task.page task.scale,
                        { task_id := w.next_task_id, priority := task.priority,
                          generation := task.generation, canceled := false })] }) := by
          unfold RenderWorker.enqueue
          rw [if_neg ?_]
          intro hor
          rcases hor with h | h
          · rw [hckf] at h; exact Bool.noConfusion h
          · exact hsat h
        have heq : w.enqueue_current_with_preemption task g keep
            = (((w.enqueue task).1, 0), (w.enqueue task).2) := by
          unfold RenderWorker.enqueue_current_with_preemption
          rw [if_neg (by rw [hckf]; exact Bool.noConfusion), if_neg hsat]
        rw [heq, henq]
        show (w.in_flight ++ [(RenderedPageKey.new task.doc_id task.page task.scale,
          ({ task_id := w.next_task_id, priority := task.priority,
             generation := task.generation, canceled := false } : InFlightTask))]).length
          ≤ w.worker_threads
        simp only [List.length_append, List.length_cons, List.length_nil]
        omega

/-- C4 counterexample: on a saturated one-thread pool whose only in-flight
entry is CriticalCurrent, a preemption attempt for an absent key returns
`(false, 0)` — no victim is selected and nothing is canceled — against the
claimed unconditional `(false, 1)`. -/
theorem claim_c4_counterexample :
    containsKey (RenderedPageKey.new (wTask 2 .criticalCurrent 2).doc_id
        (wTask 2 .criticalCurrent 2).page (wTask 2 .criticalCurrent 2).scale)
      c4WorkerAllCritical.in_flight = false
    ∧ c4WorkerAllCritical.worker_threads ≤ c4WorkerAllCritical.in_flight.length
    ∧ (c4WorkerAllCritical.enqueue_current_with_preemption
        (wTask 2 .criticalCurrent 2) 2 (wKey 2)).1 = (false, 0) := by
  decide

/-- C4 witness: on the saturated two-thread pool the call for a new current
page preempts the Background entry: it returns `(false, 1)`, has marked
exactly one new entry canceled, left the keep-key entry untouched, and kept
the table size. -/
theorem claim_c4_preemption_witness :
    (c6Worker.enqueue_current_with_preemption (wTask 5 .criticalCurrent 2) 2 (wKey 0)).1
        = (false, 1)
    ∧ lookupKey (wKey 0)
        (c6Worker.enqueue_current_with_preemption (wTask 5 .criticalCurrent 2) 2
          (wKey 0)).2.in_flight
        = lookupKey (wKey 0) c6Worker.in_flight
    ∧ canceledCount
        (c6Worker.enqueue_current_with_preemption (wTask 5 .criticalCurrent 2) 2 (wKey 0)).2
        = canceledCount c6Worker + 1 := by
  have h := claim_c4_preemption c6Worker (wTask 5 .criticalCurrent 2) 2 (wKey 0) (by decide)
  have hsel : c6Worker.select_preemptable_prefetch 2 (wKey 0) = some (wKey 1) := by decide
  have hle : lookupKey (wKey 1) c6Worker.in_flight
      = some { task_id := 2, priority := .background, generation := 1,
               canceled := false } := by decide
  have heq := (((h.2.1 (by decide) (by decide)).2 (wKey 1) hsel).2 _ hle).1 rfl
  have hres : (c6Worker.enqueue_current_with_preemption (wTask 5 .criticalCurrent 2) 2
      (wKey 0)).1 = (false, 1) := by rw [heq]
  obtain ⟨h1, h2, h3⟩ := h.2.2.1 1 hres
  exact ⟨hres, h1, h2⟩

/-! ## Priority-queue ordering lemmas -/

theorem cmpQueued_gt_iff {K T : Type} (a b : QueuedTask K T) :
    cmpQueued a b = .gt ↔ servedBefore a b := by
  unfold cmpQueued servedBefore
  rcases h1 : compare a.meta.cls.rank b.meta.cls.rank with _ | _ | _
  · have := Nat.compare_eq_lt.mp h1
    simp only [Ordering.then]
    constructor
    · intro h; exact Ordering.noConfusion h
    · intro h; omega
  · have h1e := Nat.compare_eq_eq.mp h1
    rcases h2 : compare a.meta.generation b.meta.generation with _ | _ | _
    · have := Nat.compare_eq_lt.mp h2
      simp only [Ordering.then]
      constructor
      · intro h; exact Ordering.noConfusion h
      · intro h; omega
    · have h2e := Nat.compare_eq_eq.mp h2
      simp only [Ordering.then]
      rcases h3 : compare b.ordinal a.ordinal with _ | _ | _
      · have := Nat.compare_eq_lt.mp h3
        constructor
        · intro h; exact Ordering.noConfusion h
        · intro h; omega
      · have h3e := Nat.compare_eq_eq.mp h3
        constructor
        · intro h; exact Ordering.noConfusion h
        · intro h; omega
      · have := Nat.compare_eq_gt.mp h3
        constructor
        · intro _; omega
        · intro _; rfl
    · have := Nat.compare_eq_gt.mp h2
      simp only [Ordering.then]
      constructor
      · intro _; omega
      · intro _; trivial
  · have := Nat.compare_eq_gt.mp h1
    simp only [Ordering.then]
    constructor
    · intro _; omega
    · intro _; trivial

theorem servedBefore_irrefl {K T : Type} (a : QueuedTask K T) : ¬ servedBefore a a := by
  unfold servedBefore
  omega

theorem servedBefore_trans {K T : Type} {a b c : QueuedTask K T}
    (h1 : servedBefore a b) (h2 : servedBefore b c) : servedBefore a c := by
  unfold servedBefore at h1 h2 ⊢
  omega

theorem servedBefore_total_of_ordinal_ne {K T : Type} {a b : QueuedTask K T}
    (h : a.ordinal ≠ b.ordinal) : servedBefore a b ∨ servedBefore b a := by
  unfold servedBefore
  omega

theorem extractMax_eq_none_iff {K T : Type} (l : List (QueuedTask K T)) :
    extractMax l = none ↔ l = [] := by
  cases l with
  | nil => simp [extractMax]
  | cons t ts =>
    constructor
    · intro hx
      exfalso
      simp only [extractMax] at hx
      rcases hts : extractMax ts with _ | ⟨m, rest⟩
      · simp only [hts] at hx
        exact Option.noConfusion hx
      · simp only [hts] at hx
        by_cases hc : cmpQueued t m = .gt
        · rw [if_pos hc] at hx; exact Option.noConfusion hx
        · rw [if_neg hc] at hx; exact Option.noConfusion hx
    · intro hx; exact List.noConfusion hx

theorem extractMax_perm {K T : Type} :
    ∀ {l : List (QueuedTask K T)} {m rest}, extractMax l = some (m, rest) →
      l.Perm (m :: rest) := by
  intro l
  induction l with
  | nil => intro m rest h; exact Option.noConfusion h
  | cons t ts ih =>
    intro m rest h
    simp only [extractMax] at h
    rcases hts : extractMax ts with _ | ⟨m0, rest0⟩
    · simp only [hts] at h
      obtain rfl := (extractMax_eq_none_iff ts).mp hts
      have h2 := Option.some_inj.mp h
      have hm : t = m := congrArg Prod.fst h2
      have hr : ([] : List (QueuedTask K T)) = rest := congrArg Prod.snd h2
      rw [← hm, ← hr]
    · simp only [hts] at h
      by_cases hc : cmpQueued t m0 = .gt
      · rw [if_pos hc] at h
        have h2 := Option.some_inj.mp h
        have hm : t = m := congrArg Prod.fst h2
        have hr : ts = rest := congrArg Prod.snd h2
        rw [← hm, ← hr]
      · rw [if_neg hc] at h
        have h2 := Option.some_inj.mp h
        have hm : m0 = m := congrArg Prod.fst h2
        have hr : t :: rest0 = rest := congrArg Prod.snd h2
        rw [← hm, ← hr]
        exact (List.Perm.cons t (ih hts)).trans (List.Perm.swap m0 t rest0)

theorem extractMax_max {K T : Type} :
    ∀ {l : List (QueuedTask K T)} {m rest}, extractMax l = some (m, rest) →
      ∀ u ∈ l, cmpQueued u m ≠ .gt := by
  intro l
  induction l with
  | nil => intro m rest h; exact Option.noConfusion h
  | cons t ts ih =>
    intro m rest h u hu
    simp only [extractMax] at h
    rcases hts : extractMax ts with _ | ⟨m0, rest0⟩
    · simp only [hts] at h
      obtain rfl := (extractMax_eq_none_iff ts).mp hts
      have hm : t = m := congrArg Prod.fst (Option.some_inj.mp h)
      rcases List.mem_cons.mp hu with rfl | hu2
      · rw [← hm]
        intro hxx
        exact servedBefore_irrefl u ((cmpQueued_gt_iff u u).mp hxx)
      · simp at hu2
    · simp only [hts] at h
      by_cases hc : cmpQueued t m0 = .gt
      · rw [if_pos hc] at h
        have hm : t = m := congrArg Prod.fst (Option.some_inj.mp h)
        rcases List.mem_cons.mp hu with rfl | hu2
        · rw [← hm]
          intro hxx
          exact servedBefore_irrefl u ((cmpQueued_gt_iff u u).mp hxx)
        · rw [← hm]
          intro hxx
          have h1 := (cmpQueued_gt_iff u t).mp hxx
          have h2 := (cmpQueued_gt_iff t m0).mp hc
          exact ih hts u hu2 ((cmpQueued_gt_iff u m0).mpr (servedBefore_trans h1 h2))
      · rw [if_neg hc] at h
        have hm : m0 = m := congrArg Prod.fst (Option.some_inj.mp h)
        rcases List.mem_cons.mp hu with rfl | hu2
        · rw [← hm]
          exact hc
        · rw [← hm]
          exact ih hts u hu2

theorem extractMax_length {K T : Type} {l : List (QueuedTask K T)} {m rest}
    (h : extractMax l = some (m, rest)) : rest.length + 1 = l.length := by
  have := (extractMax_perm h).length_eq
  simpa using this.symm

theorem popAllAux_nil {K T : Type} : ∀ fuel, popAllAux (K := K) (T := T) fuel [] = [] := by
  intro fuel
  cases fuel with
  | zero => rfl
  | succ n => rfl

theorem popAllAux_congr {K T : Type} :
    ∀ (f1 : Nat) {l : List (QueuedTask K T)} (f2 : Nat), l.length ≤ f1 → l.length ≤ f2 →
      popAllAux f1 l = popAllAux f2 l := by
  intro f1
  induction f1 with
  | zero =>
    intro l f2 h1 _
    have : l = [] := List.length_eq_zero.mp (Nat.le_zero.mp h1)
    rw [this, popAllAux_nil, popAllAux_nil]
  | succ n ih =>
    intro l f2 h1 h2
    rcases hx : extractMax l with _ | p
    · obtain rfl := (extractMax_eq_none_iff l).mp hx
      rw [popAllAux_nil, popAllAux_nil]
    · obtain ⟨m, rest⟩ := p
      have hlen := extractMax_length hx
      have hrest1 : rest.length ≤ n := by omega
      have hf2 : 1 ≤ f2 := by
        have : 1 ≤ l.length := by omega
        omega
      obtain ⟨f2p, rfl⟩ : ∃ f2p, f2 = f2p + 1 := ⟨f2 - 1, by omega⟩
      have hrest2 : rest.length ≤ f2p := by omega
      show (match extractMax l with
        | none => []
        | some (m, rest) => m :: popAllAux n rest)
        = (match extractMax l with
        | none => []
        | some (m, rest) => m :: popAllAux f2p rest)
      rw [hx]
      exact congrArg (m :: ·) (ih f2p hrest1 hrest2)

theorem popAllTasks_cons_eq {K T : Type} {l : List (QueuedTask K T)} {m rest}
    (h : extractMax l = some (m, rest)) :
    popAllTasks l = m :: popAllTasks rest := by
  unfold popAllTasks
  have hlen := extractMax_length h
  obtain ⟨n, hn⟩ : ∃ n, l.length = n + 1 := ⟨rest.length, hlen.symm⟩
  rw [hn]
  show (match extractMax l with
    | none => []
    | some (m, rest) => m :: popAllAux n rest) = m :: popAllAux rest.length rest
  rw [h]
  exact congrArg (m :: ·) (popAllAux_congr n rest.length (by omega) (by omega))

theorem popAllTasks_nil {K T : Type} : popAllTasks (K := K) (T := T) [] = [] := rfl

theorem popAllTasks_perm {K T : Type} :
    ∀ {l : List (QueuedTask K T)}, (popAllTasks l).Perm l := by
  suffices H : ∀ (n : Nat) (l : List (QueuedTask K T)), l.length = n → (popAllTasks l).Perm l by
    intro l
    exact H l.length l rfl
  intro n
  induction n using Nat.strong_induction_on with
  | _ n ih =>
    intro l hn
    rcases hx : extractMax l with _ | ⟨m, rest⟩
    · obtain rfl := (extractMax_eq_none_iff l).mp hx
      rw [popAllTasks_nil]
    · have hlen := extractMax_length hx
      rw [popAllTasks_cons_eq hx]
      have hr : (popAllTasks rest).Perm rest := ih rest.length (by omega) rest rfl
      exact (List.Perm.cons m hr).trans (extractMax_perm hx).symm

theorem popAllTasks_sorted {K T : Type} :
    ∀ {l : List (QueuedTask K T)},
      (popAllTasks l).Pairwise (fun a b => ¬ servedBefore b a) := by
  suffices H : ∀ (n : Nat) (l : List (QueuedTask K T)), l.length = n →
      (popAllTasks l).Pairwise (fun a b => ¬ servedBefore b a) by
    intro l
    exact H l.length l rfl
  intro n
  induction n using Nat.strong_induction_on with
  | _ n ih =>
    intro l hn
    rcases hx : extractMax l with _ | ⟨m, rest⟩
    · obtain rfl := (extractMax_eq_none_iff l).mp hx
      rw [popAllTasks_nil]
      exact List.Pairwise.nil
    · have hlen := extractMax_length hx
      rw [popAllTasks_cons_eq hx]
      refine List.Pairwise.cons ?_ (ih rest.length (by omega) rest rfl)
      intro u hu
      have hur : u ∈ rest := (popAllTasks_perm).mem_iff.mp hu
      have hul : u ∈ l := (extractMax_perm hx).symm.subset (List.mem_cons_of_mem m hur)
      intro hsb
      exact extractMax_max hx u hul ((cmpQueued_gt_iff u m).mpr hsb)

/-- If a list is strictly sorted by the serving order, draining it returns it
unchanged. -/
theorem popAllTasks_of_sorted {K T : Type} :
    ∀ {l : List (QueuedTask K T)}, l.Pairwise servedBefore → popAllTasks l = l := by
  intro l
  induction l with
  | nil => intro _; rfl
  | cons a l2 ih =>
    intro hp
    have hhead := List.pairwise_cons.mp hp
    have hx : extractMax (a :: l2) = some (a, l2) := by
      simp only [extractMax]
      rcases hts : extractMax l2 with _ | p
      · obtain rfl := (extractMax_eq_none_iff l2).mp hts
        rfl
      · obtain ⟨m0, rest0⟩ := p
        have hm0 : m0 ∈ l2 := (extractMax_perm hts).symm.subset (List.mem_cons_self _ _)
        show (if cmpQueued a m0 = Ordering.gt then some (a, l2) else some (m0, a :: rest0))
          = some (a, l2)
        rw [if_pos ((cmpQueued_gt_iff a m0).mpr (hhead.1 m0 hm0))]
    rw [popAllTasks_cons_eq hx]
    exact congrArg (a :: ·) (ih hhead.2)

/-- Two elements of a pairwise-ordered list, the first strictly ahead of the
second, occur in that order. -/
theorem pair_sublist_of_pairwise {α : Type} {R : α → α → Prop} :
    ∀ {l : List α} {a b : α}, l.Pairwise R → a ∈ l → b ∈ l → ¬ R b a → a ≠ b →
      [a, b].Sublist l := by
  intro l
  induction l with
  | nil => intro a b _ ha _ _ _; simp at ha
  | cons x xs ih =>
    intro a b hp ha hb hnr hne
    have hhead := List.pairwise_cons.mp hp
    rcases List.mem_cons.mp ha with rfl | ha2
    · have hb2 : b ∈ xs := by
        rcases List.mem_cons.mp hb with rfl | h
        · exact absurd rfl hne
        · exact h
      exact List.Sublist.cons₂ a (List.singleton_sublist.mpr hb2)
    · rcases List.mem_cons.mp hb with rfl | hb2
      · exact absurd (hhead.1 a ha2) hnr
      · exact List.Sublist.cons x (ih hhead.2 ha2 hb2 hnr hne)

/-! ## C2 : priority-queue pop order -/

/-- C2: on a queue whose tasks carry strictly increasing ordinals (true of
every queue reached by pushes, which stamp the strictly growing `next_ordinal`),
`pop_next_with_meta` extracts a maximal task under the heap order (class rank
descending, then generation descending, then FIFO); a resident task of
strictly higher class rank is drained before any lower-ranked resident; and
for each fixed class and generation the drain order equals insertion order. -/
theorem claim_c2_pop_order {K T : Type} [DecidableEq K] (q : PrefetchQueue K T)
    (hwf : ordinalsIncreasing q.tasks) :
    (∀ r, q.pop_next_with_meta = some r →
      ∃ item rest, extractMax q.tasks = some (item, rest)
        ∧ r.1 = (item.task, item.meta)
        ∧ ∀ u ∈ q.tasks, cmpQueued u item ≠ .gt)
    ∧ (∀ a b, a ∈ q.tasks → b ∈ q.tasks →
        b.meta.cls.rank < a.meta.cls.rank → [a, b].Sublist (popAllTasks q.tasks))
    ∧ (∀ c g, (popAllTasks q.tasks).filter
          (fun t => decide (t.meta.cls = c) && decide (t.meta.generation = g))
        = q.tasks.filter
          (fun t => decide (t.meta.cls = c) && decide (t.meta.generation = g))) := by
  refine ⟨?_, ?_, ?_⟩
  · intro r hr
    unfold PrefetchQueue.pop_next_with_meta at hr
    rcases hx : extractMax q.tasks with _ | ⟨item, rest⟩
    · simp only [hx] at hr
      exact Option.noConfusion hr
    · simp only [hx] at hr
      refine ⟨item, rest, rfl, ?_, extractMax_max hx⟩
      have h2 : (item.task, item.meta) = r.1 := congrArg Prod.fst (Option.some_inj.mp hr)
      exact h2.symm
  · intro a b ha hb hrank
    have hpa : a ∈ popAllTasks q.tasks := popAllTasks_perm.mem_iff.mpr ha
    have hpb : b ∈ popAllTasks q.tasks := popAllTasks_perm.mem_iff.mpr hb
    have hab : servedBefore a b := Or.inl hrank
    have hne : a ≠ b := by
      intro heq
      rw [heq] at hrank
      exact Nat.lt_irrefl _ hrank
    exact pair_sublist_of_pairwise popAllTasks_sorted hpa hpb
      (fun hn => hn hab) hne
  · intro c g
    have hperm := List.Perm.filter
      (fun t : QueuedTask K T => decide (t.meta.cls = c) && decide (t.meta.generation = g))
      (popAllTasks_perm (l := q.tasks))
    have hsorted_tasks : (q.tasks.filter
        (fun t => decide (t.meta.cls = c) && decide (t.meta.generation = g))).Pairwise
        (fun a b => a.ordinal < b.ordinal) :=
      List.Pairwise.sublist (List.filter_sublist _) hwf
    have hne_pop : (popAllTasks q.tasks).Pairwise
        (fun a b => a.ordinal ≠ b.ordinal) := by
      have hne_tasks : q.tasks.Pairwise (fun a b => a.ordinal ≠ b.ordinal) :=
        List.Pairwise.imp (fun h => Nat.ne_of_lt h) hwf
      exact (List.Perm.pairwise_iff (fun h => h.symm) popAllTasks_perm).mpr hne_tasks
    have hcomb := List.Pairwise.sublist (List.filter_sublist
        (p := fun t : QueuedTask K T =>
          decide (t.meta.cls = c) && decide (t.meta.generation = g)) _)
      (List.Pairwise.and popAllTasks_sorted hne_pop)
    have hsorted_pop : ((popAllTasks q.tasks).filter
        (fun t => decide (t.meta.cls = c) && decide (t.meta.generation = g))).Pairwise
        (fun a b => a.ordinal < b.ordinal) := by
      rw [List.pairwise_iff_forall_sublist]
      intro a b hab
      have haf : a ∈ (popAllTasks q.tasks).filter
          (fun t => decide (t.meta.cls = c) && decide (t.meta.generation = g)) :=
        hab.subset (by simp)
      have hbf : b ∈ (popAllTasks q.tasks).filter
          (fun t => decide (t.meta.cls = c) && decide (t.meta.generation = g)) :=
        hab.subset (by simp)
      have hpa := (List.mem_filter.mp haf).2
      have hpb := (List.mem_filter.mp hbf).2
      simp only [Bool.and_eq_true, decide_eq_true_eq] at hpa hpb
      have hR := (List.pairwise_iff_forall_sublist.mp hcomb) hab
      have hrank : a.meta.cls.rank = b.meta.cls.rank := by
        rw [hpa.1, hpb.1]
      have hgen : a.meta.generation = b.meta.generation := by
        rw [hpa.2, hpb.2]
      have hnsb := hR.1
      unfold servedBefore at hnsb
      push_neg at hnsb
      rcases Nat.lt_or_ge a.ordinal b.ordinal with h | h
      · exact h
      · exfalso
        have hord : b.ordinal < a.ordinal := by
          rcases Nat.eq_or_lt_of_le h with heq | hlt
          · exact absurd heq.symm hR.2
          · exact hlt
        have hle : a.ordinal ≤ b.ordinal := (hnsb.2 hrank.symm).2 hgen.symm
        omega
    haveI : IsAntisymm (QueuedTask K T) (fun a b => a.ordinal < b.ordinal) :=
      ⟨fun _ _ h1 h2 => (Nat.lt_asymm h1 h2).elim⟩
    exact List.eq_of_perm_of_sorted hperm hsorted_pop hsorted_tasks

/-- C2 witness: the theorem applied to the five-push fixture queue — its
DirectionalLead generation-1 items drain in push order. -/
theorem claim_c2_pop_order_witness :
    (popAllTasks c2Queue.tasks).filter
        (fun t => decide (t.meta.cls = PrefetchClass.directionalLead)
          && decide (t.meta.generation = 1))
      = c2Queue.tasks.filter
        (fun t => decide (t.meta.cls = PrefetchClass.directionalLead)
          && decide (t.meta.generation = 1)) :=
  (claim_c2_pop_order c2Queue (by decide)).2.2 PrefetchClass.directionalLead 1

/-! ## C7 : stale-generation cancellation -/

/-- C7: with stale cancellation enabled, `cancel_stale_prefetch(g)` leaves
exactly the tasks that are current (`generation ≥ g`) or of an exempt class;
an item is removed precisely when its generation is below `g` and its class is
DirectionalLead or Background (CriticalCurrent and GuardReverse are never
removed); the returned count is the number of removed items; and on a queue
with pairwise-distinct ordinals an immediately repeated call removes 0 items
and leaves the state unchanged. -/
theorem claim_c7_cancel_stale {K T : Type} [DecidableEq K] (q : PrefetchQueue K T)
    (g : Nat) (hcfg : q.config.cancel_stale_generation = true)
    (hwf : ordinalsDistinct q.tasks) :
    ((q.cancel_stale_prefetch g).2.tasks.Perm
        (q.tasks.filter (fun t => staleKeep g t.meta)))
    ∧ (∀ meta : QueueTaskMeta K, staleKeep g meta = false ↔
        (meta.generation < g
          ∧ (meta.cls = .directionalLead ∨ meta.cls = .background)))
    ∧ ((q.cancel_stale_prefetch g).1
        = (q.tasks.filter (fun t => staleKeep g t.meta = false)).length)
    ∧ ((q.cancel_stale_prefetch g).2.cancel_stale_prefetch g
        = (0, (q.cancel_stale_prefetch g).2)) := by
  have haux : ∀ p : PrefetchQueue K T, p.config.cancel_stale_generation = true →
      p.cancel_stale_prefetch g = p.retain (fun _ meta => staleKeep g meta) := by
    intro p hp
    unfold PrefetchQueue.cancel_stale_prefetch
    rw [if_neg (by rw [hp]; exact Bool.noConfusion)]
  have hq1 : q.cancel_stale_prefetch g = q.retain (fun _ meta => staleKeep g meta) :=
    haux q hcfg
  have htasks1 : (q.cancel_stale_prefetch g).2.tasks
      = (popAllTasks q.tasks).filter (fun t => staleKeep g t.meta) := by
    rw [hq1]
    rfl
  have hkeepfilter := List.Perm.filter
    (fun t : QueuedTask K T => staleKeep g t.meta) (popAllTasks_perm (l := q.tasks))
  refine ⟨?_, ?_, ?_, ?_⟩
  · rw [htasks1]
    exact hkeepfilter
  · intro meta
    cases hcls : meta.cls <;> simp [staleKeep, hcls]
  · rw [hq1]
    show ((popAllTasks q.tasks).filter (fun t => staleKeep g t.meta = false)).length = _
    exact (List.Perm.filter _ (popAllTasks_perm (l := q.tasks))).length_eq
  · have hconf1 : (q.cancel_stale_prefetch g).2.config = q.config := by
      rw [hq1]
      rfl
    have hq2 : (q.cancel_stale_prefetch g).2.cancel_stale_prefetch g
        = (q.cancel_stale_prefetch g).2.retain (fun _ meta => staleKeep g meta) :=
      haux _ (by rw [hconf1]; exact hcfg)
    -- the surviving tasks are strictly sorted by the serving order
    have hdist_pop : (popAllTasks q.tasks).Pairwise
        (fun a b => a.ordinal ≠ b.ordinal) :=
      (List.Perm.pairwise_iff (fun h => h.symm) popAllTasks_perm).mpr hwf
    have hcomb := List.Pairwise.sublist
      (List.filter_sublist (p := fun t : QueuedTask K T => staleKeep g t.meta) _)
      (List.Pairwise.and popAllTasks_sorted hdist_pop)
    have hsorted1 : (q.cancel_stale_prefetch g).2.tasks.Pairwise servedBefore := by
      rw [htasks1]
      exact List.Pairwise.imp
        (fun h => (servedBefore_total_of_ordinal_ne h.2).resolve_right h.1) hcomb
    have hdrain : popAllTasks (q.cancel_stale_prefetch g).2.tasks
        = (q.cancel_stale_prefetch g).2.tasks := popAllTasks_of_sorted hsorted1
    have hkeepall : ∀ t ∈ (q.cancel_stale_prefetch g).2.tasks,
        staleKeep g t.meta = true := by
      intro t ht
      rw [htasks1] at ht
      exact (List.mem_filter.mp ht).2
    have hfilter_self : (popAllTasks (q.cancel_stale_prefetch g).2.tasks).filter
        (fun t => staleKeep g t.meta) = (q.cancel_stale_prefetch g).2.tasks := by
      rw [hdrain]
      exact List.filter_eq_self.mpr hkeepall
    have hfilter_none : (popAllTasks (q.cancel_stale_prefetch g).2.tasks).filter
        (fun t => staleKeep g t.meta = false) = [] := by
      rw [hdrain]
      rw [List.filter_eq_nil_iff]
      intro t ht
      simp [hkeepall t ht]
    rw [hq2]
    unfold PrefetchQueue.retain
    refine Prod.ext ?_ ?_
    · show ((popAllTasks (q.cancel_stale_prefetch g).2.tasks).filter
        (fun t => staleKeep g t.meta = false)).length = 0
      rw [hfilter_none]
      rfl
    · show ({ (q.cancel_stale_prefetch g).2 with
          tasks := (popAllTasks (q.cancel_stale_prefetch g).2.tasks).filter
            (fun t => staleKeep g t.meta)
          queued_keys :=
            if (q.cancel_stale_prefetch g).2.config.dedupe_by_key = true then
              (((popAllTasks (q.cancel_stale_prefetch g).2.tasks).filter
                (fun t => staleKeep g t.meta)).map (fun t => t.meta.key)).foldl
                (fun s k => insertSet k s) []
            else [] } : PrefetchQueue K T)
        = (q.cancel_stale_prefetch g).2
      rw [hfilter_self]
      have hkeys : (q.cancel_stale_prefetch g).2.queued_keys
          = (if (q.cancel_stale_prefetch g).2.config.dedupe_by_key = true then
              ((q.cancel_stale_prefetch g).2.tasks.map (fun t => t.meta.key)).foldl
                (fun s k => insertSet k s) []
            else []) := by
        rw [hq1]
        rfl
      rw [← hkeys]

/-- C7 witness: the theorem applied to the five-push fixture queue at
generation 2 — the count matches the removed set and the second call is the
identity. -/
theorem claim_c7_cancel_stale_witness :
    ((c2Queue.cancel_stale_prefetch 2).1
      = (c2Queue.tasks.filter (fun t => staleKeep 2 t.meta = false)).length)
    ∧ ((c2Queue.cancel_stale_prefetch 2).2.cancel_stale_prefetch 2
      = (0, (c2Queue.cancel_stale_prefetch 2).2)) :=
  ⟨(claim_c7_cancel_stale c2Queue 2 (by decide) (by decide)).2.2.1,
    (claim_c7_cancel_stale c2Queue 2 (by decide) (by decide)).2.2.2⟩

/-! ## C8 : encoder queue admission -/

theorem mem_insertSet {K : Type} [DecidableEq K] (k x : K) (s : List K) :
    x ∈ insertSet k s ↔ x ∈ s ∨ x = k := by
  unfold insertSet
  by_cases hk : k ∈ s
  · rw [if_pos hk]
    constructor
    · exact Or.inl
    · rintro (h | rfl)
      · exact h
      · exact hk
  · rw [if_neg hk]
    simp [List.mem_append]

theorem mem_foldl_insertSet {K : Type} [DecidableEq K] :
    ∀ (ks : List K) (s : List K) (x : K),
      x ∈ ks.foldl (fun s k => insertSet k s) s ↔ x ∈ s ∨ x ∈ ks := by
  intro ks
  induction ks with
  | nil => intro s x; simp
  | cons k ks ih =>
    intro s x
    simp only [List.foldl_cons]
    rw [ih, mem_insertSet]
    constructor
    · rintro ((h | rfl) | h)
      · exact Or.inl h
      · exact Or.inr (List.mem_cons_self _ _)
      · exact Or.inr (List.mem_cons_of_mem _ h)
    · rintro (h | h)
      · exact Or.inl (Or.inl h)
      · rcases List.mem_cons.mp h with rfl | h2
        · exact Or.inl (Or.inr rfl)
        · exact Or.inr h2

/-- The fields of a `retain` result, read off the definition. -/
theorem retain_spec {K T : Type} [DecidableEq K] (q : PrefetchQueue K T)
    (keep : T → QueueTaskMeta K → Bool) :
    (q.retain keep).2.tasks = (popAllTasks q.tasks).filter (fun t => keep t.task t.meta)
    ∧ (q.retain keep).2.queued_keys = (if q.config.dedupe_by_key = true then
        (((popAllTasks q.tasks).filter (fun t => keep t.task t.meta)).map
          (fun t => t.meta.key)).foldl (fun s k => insertSet k s) [] else [])
    ∧ (q.retain keep).2.next_ordinal = q.next_ordinal
    ∧ (q.retain keep).2.config = q.config :=
  ⟨rfl, rfl, rfl, rfl⟩

/-- `retain` rebuilds a key set that is consistent with the kept tasks. -/
theorem retain_consistent {K T : Type} [DecidableEq K] (q : PrefetchQueue K T)
    (keep : T → QueueTaskMeta K → Bool) (hd : q.config.dedupe_by_key = true) :
    QueueKeysConsistent (q.retain keep).2 := by
  obtain ⟨ht, hk, -, -⟩ := retain_spec q keep
  constructor
  · intro k hkm
    rw [hk, if_pos hd, mem_foldl_insertSet] at hkm
    rcases hkm with h | h
    · simp at h
    · obtain ⟨t, htm, heq⟩ := List.mem_map.mp h
      exact ⟨t, by rw [ht]; exact htm, heq⟩
  · intro t htm
    rw [ht] at htm
    rw [hk, if_pos hd, mem_foldl_insertSet]
    right
    exact List.mem_map_of_mem _ htm

theorem push_of_queued {K T : Type} [DecidableEq K] {q : PrefetchQueue K T}
    {task : T} {meta : QueueTaskMeta K} (hd : q.config.dedupe_by_key = true)
    (h : meta.key ∈ q.queued_keys) : q.push task meta = (false, q) := by
  unfold PrefetchQueue.push
  rw [if_pos ⟨hd, h⟩]

theorem push_of_not_queued {K T : Type} [DecidableEq K] {q : PrefetchQueue K T}
    {task : T} {meta : QueueTaskMeta K} (h : meta.key ∉ q.queued_keys) :
    q.push task meta
      = (true, { q with
          tasks := q.tasks ++ [{ task := task, meta := meta, ordinal := q.next_ordinal }]
          next_ordinal := satSucc q.next_ordinal
          queued_keys := if q.config.dedupe_by_key = true then
            insertSet meta.key q.queued_keys else q.queued_keys }) := by
  unfold PrefetchQueue.push
  rw [if_neg (fun hx => h hx.2)]

/-- Tasks after an accepted push: the new task is appended at the tail. -/
theorem push_tasks_of_not_queued {K T : Type} [DecidableEq K] {q : PrefetchQueue K T}
    {task : T} {meta : QueueTaskMeta K} (h : meta.key ∉ q.queued_keys) :
    (q.push task meta).2.tasks
      = q.tasks ++ [{ task := task, meta := meta, ordinal := q.next_ordinal }] := by
  rw [push_of_not_queued h]

/-- Metadata lists after an accepted push: the new meta is appended at the tail. -/
theorem push_metas_of_not_queued {K T : Type} [DecidableEq K] {q : PrefetchQueue K T}
    {task : T} {meta : QueueTaskMeta K} (h : meta.key ∉ q.queued_keys) :
    ((q.push task meta).2.tasks).map (fun t => t.meta)
      = q.tasks.map (fun t => t.meta) ++ [meta] := by
  rw [push_tasks_of_not_queued h, List.map_append]
  rfl

/-- After any push on a dedupe queue the pushed key is queued. -/
theorem push_containsKeyQ {K T : Type} [DecidableEq K] (q : PrefetchQueue K T)
    (task : T) (meta : QueueTaskMeta K) (hd : q.config.dedupe_by_key = true) :
    (q.push task meta).2.containsKeyQ meta.key = true := by
  by_cases h : meta.key ∈ q.queued_keys
  · rw [push_of_queued hd h]
    unfold PrefetchQueue.containsKeyQ
    rw [if_pos hd]
    exact decide_eq_true h
  · rw [push_of_not_queued h]
    unfold PrefetchQueue.containsKeyQ
    rw [if_pos hd]
    show decide (meta.key ∈ if q.config.dedupe_by_key = true then
      insertSet meta.key q.queued_keys else q.queued_keys) = true
    rw [if_pos hd]
    exact decide_eq_true ((mem_insertSet _ _ _).mpr (Or.inr rfl))

/-- C8 (amended): queue admission performs, in order, stale cancellation with
one `CanceledStale{key}` event per removed item, then the critical-current
removal of the existing queued instance, then the push of the new task.  The
push is accepted unless the key is still queued after the first two steps
(dedupe keeps the first queued instance), so after admission the queue always
contains a task for the request's key; for a CriticalCurrent request the
queued task under that key is exactly the new one, and for any request whose
key is not otherwise queued the new task joins the stale-filtered queue. -/
theorem claim_c8_encode_admission (req : EncodeRequest)
    (q : PrefetchQueue TerminalFrameKey EncodeWorkerTask)
    (hd : q.config.dedupe_by_key = true) :
    ((enqueue_with_notifications req q).1.Perm
      ((q.tasks.filter (fun t => staleKeep req.generation t.meta = false)).map
        (fun t => EncodeWorkerEvent.canceledStale t.meta.key)))
    ∧ (req.cls = PrefetchClass.criticalCurrent →
        ((enqueue_with_notifications req q).2.tasks.map (fun t => t.meta)).Perm
          (({ key := req.key, cls := req.cls, generation := req.generation } :
              QueueTaskMeta TerminalFrameKey) ::
            (q.tasks.filter (fun t =>
              decide (t.meta.key ≠ req.key) && staleKeep req.generation t.meta)).map
              (fun t => t.meta)))
    ∧ ((enqueue_with_notifications req q).2.containsKeyQ req.key = true)
    ∧ (req.cls ≠ PrefetchClass.criticalCurrent →
        (∀ t ∈ q.tasks, staleKeep req.generation t.meta = true → t.meta.key ≠ req.key) →
        ((enqueue_with_notifications req q).2.tasks.map (fun t => t.meta)).Perm
          (({ key := req.key, cls := req.cls, generation := req.generation } :
              QueueTaskMeta TerminalFrameKey) ::
            (q.tasks.filter (fun t => staleKeep req.generation t.meta)).map
              (fun t => t.meta))) := by
  have hq1spec := retain_spec q (fun _ meta => staleKeep req.generation meta)
  have hq1d : (q.retain (fun _ meta => staleKeep req.generation meta)).2.config.dedupe_by_key
      = true := by
    rw [hq1spec.2.2.2]
    exact hd
  have hq1cons := retain_consistent q (fun _ meta => staleKeep req.generation meta) hd
  have hq1perm : (q.retain (fun _ meta => staleKeep req.generation meta)).2.tasks.Perm
      (q.tasks.filter (fun t => staleKeep req.generation t.meta)) := by
    rw [hq1spec.1]
    exact List.Perm.filter _ popAllTasks_perm
  refine ⟨?_, ?_, ?_, ?_⟩
  · have hev : (enqueue_with_notifications req q).1
        = ((popAllTasks q.tasks).filter
            (fun t => staleKeep req.generation t.meta = false)).map
            (fun t => EncodeWorkerEvent.canceledStale t.meta.key) := by
      show (((popAllTasks q.tasks).filter
          (fun t => staleKeep req.generation t.meta = false)).map
          (fun t => t.meta.key)).map (fun k => EncodeWorkerEvent.canceledStale k) = _
      rw [List.map_map]
      rfl
    rw [hev]
    exact List.Perm.map _ (List.Perm.filter _ popAllTasks_perm)
  · intro hcrit
    by_cases hck : (q.retain
        (fun _ meta => staleKeep req.generation meta)).2.containsKeyQ req.key = true
    · have hres2 : (enqueue_with_notifications req q).2
          = (((q.retain (fun _ meta => staleKeep req.generation meta)).2.retain
              (fun _ meta => decide (meta.key ≠ req.key))).2.push
            { key := req.key, picker := req.picker, frame := req.frame, area := req.area }
            { key := req.key, cls := req.cls, generation := req.generation }).2 := by
        show ((if req.cls = PrefetchClass.criticalCurrent
            ∧ (q.retain (fun _ meta => staleKeep req.generation meta)).2.containsKeyQ
                req.key = true then
            ((q.retain (fun _ meta => staleKeep req.generation meta)).2.retain
              (fun _ meta => decide (meta.key ≠ req.key))).2
          else (q.retain (fun _ meta => staleKeep req.generation meta)).2).push
            { key := req.key, picker := req.picker, frame := req.frame, area := req.area }
            { key := req.key, cls := req.cls, generation := req.generation }).2 = _
        rw [if_pos ⟨hcrit, hck⟩]
      have hq2spec := retain_spec (q.retain (fun _ meta => staleKeep req.generation meta)).2
        (fun _ meta => decide (meta.key ≠ req.key))
      have hq2cons := retain_consistent
        (q.retain (fun _ meta => staleKeep req.generation meta)).2
        (fun _ meta => decide (meta.key ≠ req.key)) hq1d
      have hnokey : ({ key := req.key, cls := req.cls, generation := req.generation } :
          QueueTaskMeta TerminalFrameKey).key ∉
          ((q.retain (fun _ meta => staleKeep req.generation meta)).2.retain
            (fun _ meta => decide (meta.key ≠ req.key))).2.queued_keys := by
        intro hmem
        obtain ⟨t, htm, hkeq⟩ := hq2cons.1 _ hmem
        rw [hq2spec.1] at htm
        have hne := (List.mem_filter.mp htm).2
        rw [decide_eq_true_eq] at hne
        exact hne hkeq
      rw [hres2, push_metas_of_not_queued hnokey]
      refine (List.perm_append_singleton _ _).trans (List.Perm.cons _ ?_)
      have hstep1 : ((q.retain (fun _ meta => staleKeep req.generation meta)).2.retain
          (fun _ meta => decide (meta.key ≠ req.key))).2.tasks.Perm
          (q.tasks.filter (fun t =>
            decide (t.meta.key ≠ req.key) && staleKeep req.generation t.meta)) := by
        rw [hq2spec.1]
        refine (List.Perm.filter _ (popAllTasks_perm (l :=
          (q.retain (fun _ meta => staleKeep req.generation meta)).2.tasks))).trans ?_
        rw [hq1spec.1, List.filter_filter]
        exact List.Perm.filter _ popAllTasks_perm
      exact List.Perm.map _ hstep1
    · have hres2 : (enqueue_with_notifications req q).2
          = ((q.retain (fun _ meta => staleKeep req.generation meta)).2.push
            { key := req.key, picker := req.picker, frame := req.frame, area := req.area }
            { key := req.key, cls := req.cls, generation := req.generation }).2 := by
        show ((if req.cls = PrefetchClass.criticalCurrent
            ∧ (q.retain (fun _ meta => staleKeep req.generation meta)).2.containsKeyQ
                req.key = true then
            ((q.retain (fun _ meta => staleKeep req.generation meta)).2.retain
              (fun _ meta => decide (meta.key ≠ req.key))).2
          else (q.retain (fun _ meta => staleKeep req.generation meta)).2).push
            { key := req.key, picker := req.picker, frame := req.frame, area := req.area }
            { key := req.key, cls := req.cls, generation := req.generation }).2 = _
        rw [if_neg (fun hx => hck hx.2)]
      have hnk : ({ key := req.key, cls := req.cls, generation := req.generation } :
          QueueTaskMeta TerminalFrameKey).key ∉
          (q.retain (fun _ meta => staleKeep req.generation meta)).2.queued_keys := by
        intro hmem
        apply hck
        unfold PrefetchQueue.containsKeyQ
        rw [if_pos hq1d]
        exact decide_eq_true hmem
      rw [hres2, push_metas_of_not_queued hnk]
      refine (List.perm_append_singleton _ _).trans (List.Perm.cons _ ?_)
      have hfe : q.tasks.filter (fun t =>
          decide (t.meta.key ≠ req.key) && staleKeep req.generation t.meta)
          = q.tasks.filter (fun t => staleKeep req.generation t.meta) := by
        apply List.filter_congr
        intro t htm
        cases hkeep : staleKeep req.generation t.meta with
        | false => simp [hkeep]
        | true =>
          have htf : t ∈ (q.retain (fun _ meta => staleKeep req.generation meta)).2.tasks :=
            hq1perm.mem_iff.mpr (List.mem_filter.mpr ⟨htm, hkeep⟩)
          have hkeyne : t.meta.key ≠ req.key := by
            intro heq
            apply hck
            unfold PrefetchQueue.containsKeyQ
            rw [if_pos hq1d]
            exact decide_eq_true (heq ▸ hq1cons.2 t htf)
          simp [hkeep, hkeyne]
      rw [hfe]
      exact List.Perm.map _ hq1perm
  · have hq2d : (if req.cls = PrefetchClass.criticalCurrent
        ∧ (q.retain (fun _ meta => staleKeep req.generation meta)).2.containsKeyQ
            req.key = true then
        ((q.retain (fun _ meta => staleKeep req.generation meta)).2.retain
          (fun _ meta => decide (meta.key ≠ req.key))).2
      else (q.retain (fun _ meta => staleKeep req.generation meta)).2).config.dedupe_by_key
        = true := by
      split
      · rw [(retain_spec _ _).2.2.2]
        exact hq1d
      · exact hq1d
    exact push_containsKeyQ _ _ _ hq2d
  · intro hncrit hfresh
    have hres2 : (enqueue_with_notifications req q).2
        = ((q.retain (fun _ meta => staleKeep req.generation meta)).2.push
          { key := req.key, picker := req.picker, frame := req.frame, area := req.area }
          { key := req.key, cls := req.cls, generation := req.generation }).2 := by
      show ((if req.cls = PrefetchClass.criticalCurrent
          ∧ (q.retain (fun _ meta => staleKeep req.generation meta)).2.containsKeyQ
              req.key = true then
          ((q.retain (fun _ meta => staleKeep req.generation meta)).2.retain
            (fun _ meta => decide (meta.key ≠ req.key))).2
        else (q.retain (fun _ meta => staleKeep req.generation meta)).2).push
          { key := req.key, picker := req.picker, frame := req.frame, area := req.area }
          { key := req.key, cls := req.cls, generation := req.generation }).2 = _
      rw [if_neg (fun hx => hncrit hx.1)]
    have hnk : ({ key := req.key, cls := req.cls, generation := req.generation } :
        QueueTaskMeta TerminalFrameKey).key ∉
        (q.retain (fun _ meta => staleKeep req.generation meta)).2.queued_keys := by
      intro hmem
      obtain ⟨t, htm, hkeq⟩ := hq1cons.1 _ hmem
      rw [hq1spec.1] at htm
      have h2 := List.mem_filter.mp htm
      have htq : t ∈ q.tasks := popAllTasks_perm.subset h2.1
      exact hfresh t htq h2.2 hkeq
    rw [hres2, push_metas_of_not_queued hnk]
    exact (List.perm_append_singleton _ _).trans
      (List.Perm.cons _ (List.Perm.map _ hq1perm))

/-- C8 counterexample: a DirectionalLead request (generation 3) whose key is
already queued by a fresher task (generation 5) is dedupe-rejected: after
admission the queue still holds only the old task and no task of the request's
generation exists, so the queue does not contain the new request's task. -/
theorem claim_c8_counterexample :
    c8Req.generation = 3
    ∧ (enqueue_with_notifications c8Req c8Queue).2.tasks.map
        (fun t => t.meta.generation) = [5]
    ∧ (enqueue_with_notifications c8Req c8Queue).1 = [] := by
  decide

/-- C8 witness: the amended theorem applied to the CriticalCurrent fixture
request; its key is queued after admission. -/
theorem claim_c8_encode_admission_witness :
    (enqueue_with_notifications c8ReqCrit c8Queue).2.containsKeyQ c8ReqCrit.key = true :=
  (claim_c8_encode_admission c8ReqCrit c8Queue (by decide)).2.2.1

/-- C10 witness: the mismatched-task-id event is rejected, yet its key's entry
is removed from the in-flight table. -/
theorem claim_c10_drop_removes_entry_witness :
    (c6Worker.accept_result_event c6EventStale).2.in_flight
        = (removeKey c6EventStale.key c6Worker.in_flight).2
    ∧ (c6Worker.accept_result_event c6EventStale).2.in_flight.length + 1
        = c6Worker.in_flight.length
    ∧ containsKey c6EventStale.key (c6Worker.accept_result_event c6EventStale).2.in_flight
        = false :=
  claim_c10_drop_removes_entry c6Worker c6EventStale (by decide) (by decide)

/-! ## C1 : the budgeted-LRU cache invariant -/

theorem lookupKey_none_iff_keys {K V : Type} [DecidableEq K] {k : K} {l : List (K × V)} :
    lookupKey k l = none ↔ k ∉ l.map (fun e => e.1) := by
  rw [lookupKey_none_iff]
  constructor
  · intro h hk
    obtain ⟨e, he, hek⟩ := List.mem_map.mp hk
    refine h e.2 ?_
    rw [show (k, e.2) = e from Prod.ext hek.symm rfl]
    exact he
  · intro h v hv
    exact h (List.mem_map.mpr ⟨(k, v), hv, rfl⟩)

theorem containsKey_eq_false_of_none {K V : Type} [DecidableEq K] {k : K}
    {l : List (K × V)} (h : lookupKey k l = none) : containsKey k l = false := by
  unfold containsKey
  rw [h]
  rfl

theorem sumValBy_removeKey {K V : Type} [DecidableEq K] (f : V → Nat) {k : K} {v : V}
    {l : List (K × V)} (h : lookupKey k l = some v) :
    sumValBy f l = f v + sumValBy f (removeKey k l).2 := by
  rw [sumValBy_perm f (removeKey_some h).2.1, sumValBy_cons]

theorem lruPut_fresh_of_lt {K V : Type} [DecidableEq K] {cap : Nat} {k : K} (v : V)
    {l : List (K × V)} (h : lookupKey k l = none) (hcap : ¬ cap ≤ l.length) :
    lruPut cap k v l = (k, v) :: l := by
  unfold lruPut
  rw [containsKey_eq_false_of_none h]
  simp [hcap]

theorem lruPut_fresh_of_ge {K V : Type} [DecidableEq K] {cap : Nat} {k : K} (v : V)
    {l : List (K × V)} (h : lookupKey k l = none) (hcap : cap ≤ l.length) :
    lruPut cap k v l = (k, v) :: l.dropLast := by
  unfold lruPut
  rw [containsKey_eq_false_of_none h]
  simp [hcap]

theorem touchKey_perm {K V : Type} [DecidableEq K] (k : K) (l : List (K × V)) :
    (touchKey k l).Perm l := by
  unfold touchKey
  cases hl : lookupKey k l with
  | none => exact List.Perm.refl l
  | some v => exact ((removeKey_some hl).2.1).symm

theorem evictLoopL1Aux_spec (maxE budget : Nat) :
    ∀ (fuel : Nat) (items : List (RenderedPageKey × RgbaFrame)) (mem evk : Nat),
      mem = l1SumBytes items →
      (evictLoopL1Aux maxE budget fuel items mem evk).2.1
          = l1SumBytes (evictLoopL1Aux maxE budget fuel items mem evk).1
      ∧ (evictLoopL1Aux maxE budget fuel items mem evk).1.Sublist items
      ∧ (items.length ≤ fuel →
          ((evictLoopL1Aux maxE budget fuel items mem evk).1.length ≤ maxE
            ∧ (evictLoopL1Aux maxE budget fuel items mem evk).2.1 ≤ budget)
          ∨ (evictLoopL1Aux maxE budget fuel items mem evk).1.length = 1) := by
  intro fuel
  induction fuel with
  | zero =>
    intro items mem evk hmem
    refine ⟨hmem, List.Sublist.refl items, ?_⟩
    intro hlen
    have hnil : items = [] := by
      cases items with
      | nil => rfl
      | cons x xs => simp only [List.length_cons] at hlen; omega
    subst hnil
    have hm0 : mem = 0 := by simpa [l1SumBytes, sumValBy] using hmem
    subst hm0
    exact Or.inl ⟨Nat.zero_le maxE, Nat.zero_le budget⟩
  | succ fuel ih =>
    intro items mem evk hmem
    by_cases hcond : maxE < items.length ∨ budget < mem
    · by_cases hone : items.length = 1
      · have hunf : evictLoopL1Aux maxE budget (fuel + 1) items mem evk
            = (items, mem, evk) := by
          simp only [evictLoopL1Aux]
          rw [if_pos hcond, if_pos hone]
        rw [hunf]
        exact ⟨hmem, List.Sublist.refl items, fun _ => Or.inr hone⟩
      · cases hlast : items.getLast? with
        | none =>
          have hnil : items = [] := List.getLast?_eq_none_iff.mp hlast
          subst hnil
          have hm0 : mem = 0 := by simpa [l1SumBytes, sumValBy] using hmem
          subst hm0
          rcases hcond with h | h
          · exact absurd h (by simp)
          · exact absurd h (by omega)
        | some e =>
          have hne : items ≠ [] := by
            intro h0
            rw [h0] at hlast
            simp at hlast
          have hunf : evictLoopL1Aux maxE budget (fuel + 1) items mem evk
              = evictLoopL1Aux maxE budget fuel items.dropLast
                  (mem - e.2.byte_len) (evk + 1) := by
            simp only [evictLoopL1Aux]
            rw [if_pos hcond, if_neg hone, hlast]
          have hmem' : mem - e.2.byte_len = l1SumBytes items.dropLast := by
            have hd := sumValBy_dropLast RgbaFrame.byte_len hlast
            unfold l1SumBytes at hmem ⊢
            omega
          obtain ⟨h1, h2, h3⟩ := ih items.dropLast (mem - e.2.byte_len) (evk + 1) hmem'
          rw [hunf]
          refine ⟨h1, h2.trans (List.dropLast_sublist items), ?_⟩
          intro hlen
          apply h3
          have hpos := List.length_pos_of_ne_nil hne
          rw [List.length_dropLast]
          omega
    · have hunf : evictLoopL1Aux maxE budget (fuel + 1) items mem evk
          = (items, mem, evk) := by
        simp only [evictLoopL1Aux]
        rw [if_neg hcond]
      rw [hunf]
      push_neg at hcond
      exact ⟨hmem, List.Sublist.refl items, fun _ => Or.inl ⟨hcond.1, hcond.2⟩⟩

theorem evictLoopL2Aux_spec (maxE budget : Nat) :
    ∀ (fuel : Nat) (items : List (TerminalFrameKey × TerminalFrameEntry)) (mem : Nat),
      mem = l2SumBytes items →
      (evictLoopL2Aux maxE budget fuel items mem).2
          = l2SumBytes (evictLoopL2Aux maxE budget fuel items mem).1
      ∧ (evictLoopL2Aux maxE budget fuel items mem).1.Sublist items
      ∧ (items.length ≤ fuel →
          (evictLoopL2Aux maxE budget fuel items mem).1.length ≤ maxE
          ∧ (evictLoopL2Aux maxE budget fuel items mem).2 ≤ budget) := by
  intro fuel
  induction fuel with
  | zero =>
    intro items mem hmem
    refine ⟨hmem, List.Sublist.refl items, ?_⟩
    intro hlen
    have hnil : items = [] := by
      cases items with
      | nil => rfl
      | cons x xs => simp only [List.length_cons] at hlen; omega
    subst hnil
    have hm0 : mem = 0 := by simpa [l2SumBytes, sumValBy] using hmem
    subst hm0
    exact ⟨Nat.zero_le maxE, Nat.zero_le budget⟩
  | succ fuel ih =>
    intro items mem hmem
    by_cases hcond : maxE < items.length ∨ budget < mem
    · cases hlast : items.getLast? with
      | none =>
        have hnil : items = [] := List.getLast?_eq_none_iff.mp hlast
        subst hnil
        have hm0 : mem = 0 := by simpa [l2SumBytes, sumValBy] using hmem
        subst hm0
        rcases hcond with h | h
        · exact absurd h (by simp)
        · exact absurd h (by omega)
      | some e =>
        have hne : items ≠ [] := by
          intro h0
          rw [h0] at hlast
          simp at hlast
        have hunf : evictLoopL2Aux maxE budget (fuel + 1) items mem
            = evictLoopL2Aux maxE budget fuel items.dropLast (mem - e.2.approx_bytes) := by
          simp only [evictLoopL2Aux]
          rw [if_pos hcond, hlast]
        have hmem' : mem - e.2.approx_bytes = l2SumBytes items.dropLast := by
          have hd := sumValBy_dropLast TerminalFrameEntry.approx_bytes hlast
          unfold l2SumBytes at hmem ⊢
          omega
        obtain ⟨h1, h2, h3⟩ := ih items.dropLast (mem - e.2.approx_bytes) hmem'
        rw [hunf]
        refine ⟨h1, h2.trans (List.dropLast_sublist items), ?_⟩
        intro hlen
        apply h3
        have hpos := List.length_pos_of_ne_nil hne
        rw [List.length_dropLast]
        omega
    · have hunf : evictLoopL2Aux maxE budget (fuel + 1) items mem = (items, mem) := by
        simp only [evictLoopL2Aux]
        rw [if_neg hcond]
      rw [hunf]
      push_neg at hcond
      exact ⟨hmem, List.Sublist.refl items, fun _ => ⟨hcond.1, hcond.2⟩⟩

theorem L1Wf_of_evict (c : RenderedPageCache)
    (items : List (RenderedPageKey × RgbaFrame)) (mem evk : Nat)
    (hmem : mem = l1SumBytes items)
    (hnd : (items.map (fun e => e.1)).Nodup)
    (hmax : 1 ≤ c.max_entries) (hbudpos : 1 ≤ c.memory_budget_bytes) :
    L1Wf { c with
      entries :=
        (evictLoopL1Aux c.max_entries c.memory_budget_bytes items.length items mem evk).1
      memory_bytes :=
        (evictLoopL1Aux c.max_entries c.memory_budget_bytes items.length items mem evk).2.1
      evictions :=
        (evictLoopL1Aux c.max_entries c.memory_budget_bytes items.length items mem evk).2.2 } := by
  obtain ⟨h1, h2, h3⟩ := evictLoopL1Aux_spec c.max_entries c.memory_budget_bytes
    items.length items mem evk hmem
  have h3' := h3 (Nat.le_refl _)
  refine ⟨⟨h1, ?_, ?_⟩, ?_, hmax, hbudpos⟩
  · rcases h3' with ⟨hL, _⟩ | hOne
    · exact hL
    · rw [hOne]
      exact hmax
  · by_cases hmb :
        (evictLoopL1Aux c.max_entries c.memory_budget_bytes
          items.length items mem evk).2.1 ≤ c.memory_budget_bytes
    · exact Or.inl hmb
    · rcases h3' with ⟨_, hB⟩ | hOne
      · exact absurd hB hmb
      · obtain ⟨x, hx⟩ := List.length_eq_one.mp hOne
        refine Or.inr ⟨hOne, ?_⟩
        intro e he
        rw [hx, List.mem_singleton] at he
        subst he
        have hm1 : (evictLoopL1Aux c.max_entries c.memory_budget_bytes
            items.length items mem evk).2.1 = e.2.byte_len := by
          rw [h1, hx]
          simp [l1SumBytes, sumValBy]
        show c.memory_budget_bytes < e.2.byte_len
        omega
  · exact List.Nodup.sublist (List.Sublist.map _ h2) hnd

theorem L1Wf_clear (c : RenderedPageCache) (h : L1Wf c) : L1Wf c.clear := by
  obtain ⟨_, _, hmax, hbudpos⟩ := h
  exact ⟨⟨rfl, Nat.zero_le _, Or.inl (Nat.zero_le _)⟩, List.nodup_nil, hmax, hbudpos⟩

theorem L1Wf_get (c : RenderedPageCache) (k : RenderedPageKey) (h : L1Wf c) :
    L1Wf (c.get k).2 := by
  obtain ⟨⟨hsum, hlen, hbud⟩, hnd, hmax, hbudpos⟩ := h
  unfold RenderedPageCache.get
  cases hl : lookupKey k c.entries with
  | none => exact ⟨⟨hsum, hlen, hbud⟩, hnd, hmax, hbudpos⟩
  | some v =>
    have hperm := touchKey_perm k c.entries
    refine ⟨⟨?_, ?_, ?_⟩, ?_, hmax, hbudpos⟩
    · rw [hsum]
      exact (sumValBy_perm RgbaFrame.byte_len hperm).symm
    · show (touchKey k c.entries).length ≤ c.max_entries
      rw [hperm.length_eq]
      exact hlen
    · rcases hbud with hb | ⟨hb1, hb2⟩
      · exact Or.inl hb
      · refine Or.inr ⟨?_, ?_⟩
        · show (touchKey k c.entries).length = 1
          rw [hperm.length_eq]
          exact hb1
        · intro e he
          exact hb2 e (hperm.subset he)
    · exact ((hperm.map (fun e => e.1)).nodup_iff).mpr hnd

theorem L1Wf_remove (c : RenderedPageCache) (k : RenderedPageKey) (h : L1Wf c) :
    L1Wf (c.remove k) := by
  obtain ⟨⟨hsum, hlen, hbud⟩, hnd, hmax, hbudpos⟩ := h
  unfold RenderedPageCache.remove
  cases hl : lookupKey k c.entries with
  | none => exact ⟨⟨hsum, hlen, hbud⟩, hnd, hmax, hbudpos⟩
  | some frame =>
    obtain ⟨hfst, hperm, hlencnt⟩ := removeKey_some hl
    have hsum1 : sumValBy RgbaFrame.byte_len c.entries
        = frame.byte_len + sumValBy RgbaFrame.byte_len (removeKey k c.entries).2 :=
      sumValBy_removeKey RgbaFrame.byte_len hl
    refine ⟨⟨?_, ?_, ?_⟩, ?_, hmax, hbudpos⟩
    · show c.memory_bytes - frame.byte_len = l1SumBytes (removeKey k c.entries).2
      unfold l1SumBytes at hsum ⊢
      omega
    · show (removeKey k c.entries).2.length ≤ c.max_entries
      omega
    · rcases hbud with hb | ⟨hb1, _⟩
      · refine Or.inl ?_
        show c.memory_bytes - frame.byte_len ≤ c.memory_budget_bytes
        omega
      · refine Or.inl ?_
        have hrest0 : (removeKey k c.entries).2.length = 0 := by omega
        have hrestnil : (removeKey k c.entries).2 = [] :=
          List.eq_nil_of_length_eq_zero hrest0
        show c.memory_bytes - frame.byte_len ≤ c.memory_budget_bytes
        rw [hrestnil] at hsum1
        have hz : sumValBy RgbaFrame.byte_len ([] : List (RenderedPageKey × RgbaFrame))
            = 0 := rfl
        rw [hz] at hsum1
        unfold l1SumBytes at hsum
        omega
    · exact List.Nodup.sublist
        (List.Sublist.map _ (removeKey_sublist k c.entries)) hnd

theorem L1Wf_foldl_remove (keys : List RenderedPageKey) :
    ∀ (c : RenderedPageCache), L1Wf c →
      L1Wf (keys.foldl (fun acc k => acc.remove k) c) := by
  induction keys with
  | nil => intro c h; exact h
  | cons k ks ih =>
    intro c h
    exact ih _ (L1Wf_remove c k h)

theorem L1Wf_remove_doc (c : RenderedPageCache) (d : Nat) (h : L1Wf c) :
    L1Wf (c.remove_doc d) :=
  L1Wf_foldl_remove _ c h

theorem L1Wf_insert (c : RenderedPageCache) (key : RenderedPageKey) (frame : RgbaFrame)
    (allow : Bool) (h : L1Wf c) : L1Wf (c.insert key frame allow).2 := by
  obtain ⟨⟨hsum, hlen, hbud⟩, hnd, hmax, hbudpos⟩ := h
  by_cases h1 : c.memory_budget_bytes < frame.byte_len
  · by_cases h2 : allow = false
    · simp only [RenderedPageCache.insert, if_pos h1, if_pos h2]
      exact ⟨⟨hsum, hlen, hbud⟩, hnd, hmax, hbudpos⟩
    · have hput : lruPut c.clear.max_entries key frame c.clear.entries = [(key, frame)] := by
        show lruPut c.max_entries key frame [] = [(key, frame)]
        simp [lruPut, containsKey, lookupKey]
      simp only [RenderedPageCache.insert, if_pos h1, if_neg h2, hput]
      refine ⟨⟨?_, ?_, ?_⟩, ?_, hmax, hbudpos⟩
      · simp [l1SumBytes, sumValBy]
      · simpa using hmax
      · refine Or.inr ⟨by simp, ?_⟩
        intro e he
        simp only [List.mem_singleton] at he
        subst he
        exact h1
      · simp
  · by_cases h3 : allow = false ∧ c.memory_budget_bytes < c.memory_bytes
        ∧ c.entries.length = 1 ∧ lookupKey key c.entries = none
        ∧ lastIsOversize c.memory_budget_bytes c.entries = true
    · simp only [RenderedPageCache.insert, if_neg h1, if_pos h3]
      exact ⟨⟨hsum, hlen, hbud⟩, hnd, hmax, hbudpos⟩
    · cases hlook : lookupKey key c.entries with
      | none =>
        have hrem := removeKey_none (k := key) (l := c.entries) (V := RgbaFrame) hlook
        have hknotin : key ∉ c.entries.map (fun e => e.1) :=
          lookupKey_none_iff_keys.mp hlook
        by_cases hcap : c.max_entries ≤ c.entries.length
        · have hlenx : c.entries.length = c.max_entries := Nat.le_antisymm hlen hcap
          have hnenil : c.entries ≠ [] := by
            intro h0
            rw [h0] at hlenx
            simp at hlenx
            omega
          obtain ⟨e, hgl⟩ : ∃ e, c.entries.getLast? = some e := by
            cases hgl2 : c.entries.getLast? with
            | none => exact absurd (List.getLast?_eq_none_iff.mp hgl2) hnenil
            | some x => exact ⟨x, rfl⟩
          have hlru := lruPut_fresh_of_ge frame hlook hcap
          simp only [RenderedPageCache.insert, if_neg h1, if_neg h3, hrem, hgl,
            if_pos (And.intro hcap hlook), Option.map_some', hlru]
          have hmemE : c.memory_bytes + frame.byte_len - e.2.byte_len
              = l1SumBytes ((key, frame) :: c.entries.dropLast) := by
            have hd := sumValBy_dropLast RgbaFrame.byte_len hgl
            unfold l1SumBytes at hsum ⊢
            rw [sumValBy_cons,
              show ((key, frame) : RenderedPageKey × RgbaFrame).2.byte_len
                = frame.byte_len from rfl]
            have hbytes : e.2.byte_len ≤ sumValBy RgbaFrame.byte_len c.entries := by
              rw [hd]
              omega
            omega
          have hndE : (((key, frame) :: c.entries.dropLast).map (fun e => e.1)).Nodup := by
            simp only [List.map_cons]
            refine List.nodup_cons.mpr ⟨?_, ?_⟩
            · intro hmem
              refine hknotin ?_
              rw [List.map_dropLast] at hmem
              exact (List.dropLast_sublist _).subset hmem
            · rw [List.map_dropLast]
              exact List.Nodup.sublist (List.dropLast_sublist _) hnd
          exact L1Wf_of_evict c ((key, frame) :: c.entries.dropLast)
            (c.memory_bytes + frame.byte_len - e.2.byte_len) (c.evictions + 1)
            hmemE hndE hmax hbudpos
        · have hnimp : ¬ (c.max_entries ≤ c.entries.length
              ∧ lookupKey key c.entries = none) := fun hx => hcap hx.1
          have hlru := lruPut_fresh_of_lt frame hlook hcap
          simp only [RenderedPageCache.insert, if_neg h1, if_neg h3, hrem,
            if_neg hnimp, hlru]
          have hmemE : c.memory_bytes + frame.byte_len
              = l1SumBytes ((key, frame) :: c.entries) := by
            unfold l1SumBytes at hsum ⊢
            rw [sumValBy_cons,
              show ((key, frame) : RenderedPageKey × RgbaFrame).2.byte_len
                = frame.byte_len from rfl]
            omega
          have hndE : (((key, frame) :: c.entries).map (fun e => e.1)).Nodup := by
            simp only [List.map_cons]
            exact List.nodup_cons.mpr ⟨hknotin, hnd⟩
          exact L1Wf_of_evict c ((key, frame) :: c.entries)
            (c.memory_bytes + frame.byte_len) c.evictions hmemE hndE hmax hbudpos
      | some prev =>
        obtain ⟨hfst, hperm, hlencnt⟩ := removeKey_some hlook
        have hlook1 : lookupKey key (removeKey key c.entries).2 = none :=
          lookupKey_removeKey_self hnd
        have hncap : ¬ (c.max_entries ≤ (removeKey key c.entries).2.length) := by omega
        have hnimp : ¬ (c.max_entries ≤ (removeKey key c.entries).2.length
            ∧ lookupKey key (removeKey key c.entries).2 = none) := fun hx => hncap hx.1
        have hlru := lruPut_fresh_of_lt frame hlook1 hncap
        simp only [RenderedPageCache.insert, if_neg h1, if_neg h3, hfst,
          if_neg hnimp, hlru]
        have hsum1 : sumValBy RgbaFrame.byte_len c.entries
            = prev.byte_len + sumValBy RgbaFrame.byte_len (removeKey key c.entries).2 :=
          sumValBy_removeKey RgbaFrame.byte_len hlook
        have hmemE : c.memory_bytes - prev.byte_len + frame.byte_len
            = l1SumBytes ((key, frame) :: (removeKey key c.entries).2) := by
          unfold l1SumBytes at hsum ⊢
          rw [sumValBy_cons,
            show ((key, frame) : RenderedPageKey × RgbaFrame).2.byte_len
              = frame.byte_len from rfl]
          omega
        have hndE : (((key, frame) :: (removeKey key c.entries).2).map
            (fun e => e.1)).Nodup := by
          simp only [List.map_cons]
          refine List.nodup_cons.mpr ⟨lookupKey_none_iff_keys.mp hlook1, ?_⟩
          exact List.Nodup.sublist (List.Sublist.map _ (removeKey_sublist key c.entries)) hnd
        exact L1Wf_of_evict c ((key, frame) :: (removeKey key c.entries).2)
          (c.memory_bytes - prev.byte_len + frame.byte_len) c.evictions
          hmemE hndE hmax hbudpos

theorem L1Wf_apply (c : RenderedPageCache) (op : L1Op) (h : L1Wf c) :
    L1Wf (L1Op.apply c op) := by
  cases op with
  | get k => exact L1Wf_get c k h
  | insert k f allow => exact L1Wf_insert c k f allow h
  | remove k => exact L1Wf_remove c k h
  | removeDoc d => exact L1Wf_remove_doc c d h
  | clear => exact L1Wf_clear c h

theorem L1Wf_run (ops : List L1Op) :
    ∀ (c : RenderedPageCache), L1Wf c → L1Wf (runL1 ops c) := by
  induction ops with
  | nil => intro c h; exact h
  | cons op rest ih =>
    intro c h
    exact ih _ (L1Wf_apply c op h)

theorem L1Wf_new (maxE budget : Nat) : L1Wf (RenderedPageCache.new maxE budget) :=
  ⟨⟨rfl, Nat.zero_le _, Or.inl (Nat.zero_le _)⟩, List.nodup_nil,
    Nat.le_max_right maxE 1, Nat.le_max_right budget 1⟩

theorem L2Wf_of_evict (c : TerminalFrameCache)
    (items : List (TerminalFrameKey × TerminalFrameEntry)) (mem : Nat)
    (hmem : mem = l2SumBytes items)
    (hnd : (items.map (fun e => e.1)).Nodup)
    (hmax : 1 ≤ c.max_entries) (hbudpos : 1 ≤ c.memory_budget_bytes) :
    L2Wf { c with
      entries :=
        (evictLoopL2Aux c.max_entries c.memory_budget_bytes items.length items mem).1
      memory_bytes :=
        (evictLoopL2Aux c.max_entries c.memory_budget_bytes items.length items mem).2 } := by
  obtain ⟨h1, h2, h3⟩ := evictLoopL2Aux_spec c.max_entries c.memory_budget_bytes
    items.length items mem hmem
  obtain ⟨hL, hB⟩ := h3 (Nat.le_refl _)
  exact ⟨⟨h1, hL, hB⟩, List.Nodup.sublist (List.Sublist.map _ h2) hnd, hmax, hbudpos⟩

theorem L2Wf_clear (c : TerminalFrameCache) (h : L2Wf c) : L2Wf c.clear := by
  obtain ⟨_, _, hmax, hbudpos⟩ := h
  exact ⟨⟨rfl, Nat.zero_le _, Nat.zero_le _⟩, List.nodup_nil, hmax, hbudpos⟩

theorem L2Wf_lookup (c : TerminalFrameCache) (k : TerminalFrameKey) (h : L2Wf c) :
    L2Wf (c.lookup k).2 := by
  obtain ⟨⟨hsum, hlen, hbud⟩, hnd, hmax, hbudpos⟩ := h
  unfold TerminalFrameCache.lookup
  cases hl : lookupKey k c.entries with
  | none => exact ⟨⟨hsum, hlen, hbud⟩, hnd, hmax, hbudpos⟩
  | some v =>
    have hperm := touchKey_perm k c.entries
    refine ⟨⟨?_, ?_, hbud⟩, ?_, hmax, hbudpos⟩
    · rw [hsum]
      exact (sumValBy_perm TerminalFrameEntry.approx_bytes hperm).symm
    · show (touchKey k c.entries).length ≤ c.max_entries
      rw [hperm.length_eq]
      exact hlen
    · exact ((hperm.map (fun e => e.1)).nodup_iff).mpr hnd

theorem L2Wf_setState (c : TerminalFrameCache) (k : TerminalFrameKey)
    (st : TerminalFrameState) (h : L2Wf c) : L2Wf (c.setState k st) := by
  obtain ⟨⟨hsum, hlen, hbud⟩, hnd, hmax, hbudpos⟩ := h
  have hkeys : ((c.entries.map (fun e =>
      if e.1 = k then (e.1, { e.2 with state := st }) else e)).map (fun e => e.1))
      = c.entries.map (fun e => e.1) := by
    rw [List.map_map]
    apply List.map_congr_left
    intro e _
    by_cases hk : e.1 = k
    · simp [Function.comp, hk]
    · simp [Function.comp, hk]
  have hsums : sumValBy TerminalFrameEntry.approx_bytes (c.entries.map (fun e =>
      if e.1 = k then (e.1, { e.2 with state := st }) else e))
      = sumValBy TerminalFrameEntry.approx_bytes c.entries := by
    unfold sumValBy
    rw [List.map_map]
    congr 1
    apply List.map_congr_left
    intro e _
    by_cases hk : e.1 = k
    · simp [Function.comp, hk]
    · simp [Function.comp, hk]
  refine ⟨⟨?_, ?_, hbud⟩, ?_, hmax, hbudpos⟩
  · show c.memory_bytes = l2SumBytes (c.entries.map (fun e =>
      if e.1 = k then (e.1, { e.2 with state := st }) else e))
    unfold l2SumBytes
    rw [hsums]
    exact hsum
  · show (c.entries.map (fun e =>
      if e.1 = k then (e.1, { e.2 with state := st }) else e)).length ≤ c.max_entries
    rw [List.length_map]
    exact hlen
  · show ((c.entries.map (fun e =>
      if e.1 = k then (e.1, { e.2 with state := st }) else e)).map (fun e => e.1)).Nodup
    rw [hkeys]
    exact hnd

theorem L2Wf_insert (c : TerminalFrameCache) (key : TerminalFrameKey)
    (frame : RgbaFrame) (b : Nat) (h : L2Wf c) : L2Wf (c.insert key frame b) := by
  obtain ⟨⟨hsum, hlen, hbud⟩, hnd, hmax, hbudpos⟩ := h
  by_cases h1 : c.memory_budget_bytes < b
  · simp only [TerminalFrameCache.insert, if_pos h1]
    exact L2Wf_clear c ⟨⟨hsum, hlen, hbud⟩, hnd, hmax, hbudpos⟩
  · cases hlook : lookupKey key c.entries with
    | none =>
      have hrem := removeKey_none (k := key) (l := c.entries)
        (V := TerminalFrameEntry) hlook
      have hknotin : key ∉ c.entries.map (fun e => e.1) :=
        lookupKey_none_iff_keys.mp hlook
      by_cases hcap : c.max_entries ≤ c.entries.length
      · have hlenx : c.entries.length = c.max_entries := Nat.le_antisymm hlen hcap
        have hnenil : c.entries ≠ [] := by
          intro h0
          rw [h0] at hlenx
          simp at hlenx
          omega
        obtain ⟨e, hgl⟩ : ∃ e, c.entries.getLast? = some e := by
          cases hgl2 : c.entries.getLast? with
          | none => exact absurd (List.getLast?_eq_none_iff.mp hgl2) hnenil
          | some x => exact ⟨x, rfl⟩
        have hlru := lruPut_fresh_of_ge
          ({ state := .pendingFrame frame, approx_bytes := b } : TerminalFrameEntry)
          hlook hcap
        simp only [TerminalFrameCache.insert, if_neg h1, hrem, hgl,
          if_pos (And.intro hcap hlook), Option.map_some', hlru]
        have hmemE : c.memory_bytes + b - e.2.approx_bytes
            = l2SumBytes ((key,
                ({ state := .pendingFrame frame, approx_bytes := b } :
                  TerminalFrameEntry)) :: c.entries.dropLast) := by
          have hd := sumValBy_dropLast TerminalFrameEntry.approx_bytes hgl
          unfold l2SumBytes at hsum ⊢
          rw [sumValBy_cons]
          have hbytes : e.2.approx_bytes
              ≤ sumValBy TerminalFrameEntry.approx_bytes c.entries := by
            rw [hd]
            omega
          have hpr : ((key, ({ state := .pendingFrame frame, approx_bytes := b } :
              TerminalFrameEntry)) :
              TerminalFrameKey × TerminalFrameEntry).2.approx_bytes = b := rfl
          rw [hpr]
          omega
        have hndE : (((key,
            ({ state := .pendingFrame frame, approx_bytes := b } :
              TerminalFrameEntry)) :: c.entries.dropLast).map (fun e => e.1)).Nodup := by
          simp only [List.map_cons]
          refine List.nodup_cons.mpr ⟨?_, ?_⟩
          · intro hmem
            refine hknotin ?_
            rw [List.map_dropLast] at hmem
            exact (List.dropLast_sublist _).subset hmem
          · rw [List.map_dropLast]
            exact List.Nodup.sublist (List.dropLast_sublist _) hnd
        exact L2Wf_of_evict c _ _ hmemE hndE hmax hbudpos
      · have hnimp : ¬ (c.max_entries ≤ c.entries.length
            ∧ lookupKey key c.entries = none) := fun hx => hcap hx.1
        have hlru := lruPut_fresh_of_lt
          ({ state := .pendingFrame frame, approx_bytes := b } : TerminalFrameEntry)
          hlook hcap
        simp only [TerminalFrameCache.insert, if_neg h1, hrem, if_neg hnimp, hlru]
        have hmemE : c.memory_bytes + b
            = l2SumBytes ((key,
                ({ state := .pendingFrame frame, approx_bytes := b } :
                  TerminalFrameEntry)) :: c.entries) := by
          unfold l2SumBytes at hsum ⊢
          rw [sumValBy_cons]
          have hpr : ((key, ({ state := .pendingFrame frame, approx_bytes := b } :
              TerminalFrameEntry)) :
              TerminalFrameKey × TerminalFrameEntry).2.approx_bytes = b := rfl
          rw [hpr]
          omega
        have hndE : (((key,
            ({ state := .pendingFrame frame, approx_bytes := b } :
              TerminalFrameEntry)) :: c.entries).map (fun e => e.1)).Nodup := by
          simp only [List.map_cons]
          exact List.nodup_cons.mpr ⟨hknotin, hnd⟩
        exact L2Wf_of_evict c _ _ hmemE hndE hmax hbudpos
    | some prev =>
      obtain ⟨hfst, hperm, hlencnt⟩ := removeKey_some hlook
      have hlook1 : lookupKey key (removeKey key c.entries).2 = none :=
        lookupKey_removeKey_self hnd
      have hncap : ¬ (c.max_entries ≤ (removeKey key c.entries).2.length) := by omega
      have hnimp : ¬ (c.max_entries ≤ (removeKey key c.entries).2.length
          ∧ lookupKey key (removeKey key c.entries).2 = none) := fun hx => hncap hx.1
      have hlru := lruPut_fresh_of_lt
        ({ state := .pendingFrame frame, approx_bytes := b } : TerminalFrameEntry)
        hlook1 hncap
      simp only [TerminalFrameCache.insert, if_neg h1, hfst, if_neg hnimp, hlru]
      have hsum1 : sumValBy TerminalFrameEntry.approx_bytes c.entries
          = prev.approx_bytes
            + sumValBy TerminalFrameEntry.approx_bytes (removeKey key c.entries).2 :=
        sumValBy_removeKey TerminalFrameEntry.approx_bytes hlook
      have hmemE : c.memory_bytes - prev.approx_bytes + b
          = l2SumBytes ((key,
              ({ state := .pendingFrame frame, approx_bytes := b } :
                TerminalFrameEntry)) :: (removeKey key c.entries).2) := by
        unfold l2SumBytes at hsum ⊢
        rw [sumValBy_cons]
        have hpr : ((key, ({ state := .pendingFrame frame, approx_bytes := b } :
            TerminalFrameEntry)) :
            TerminalFrameKey × TerminalFrameEntry).2.approx_bytes = b := rfl
        rw [hpr]
        omega
      have hndE : (((key,
          ({ state := .pendingFrame frame, approx_bytes := b } :
            TerminalFrameEntry)) :: (removeKey key c.entries).2).map
          (fun e => e.1)).Nodup := by
        simp only [List.map_cons]
        refine List.nodup_cons.mpr ⟨lookupKey_none_iff_keys.mp hlook1, ?_⟩
        exact List.Nodup.sublist (List.Sublist.map _ (removeKey_sublist key c.entries)) hnd
      exact L2Wf_of_evict c _ _ hmemE hndE hmax hbudpos

theorem L2Wf_apply (c : TerminalFrameCache) (op : L2Op) (h : L2Wf c) :
    L2Wf (L2Op.apply c op) := by
  cases op with
  | lookup k => exact L2Wf_lookup c k h
  | insert k f b => exact L2Wf_insert c k f b h
  | setState k st => exact L2Wf_setState c k st h
  | clear => exact L2Wf_clear c h

theorem L2Wf_run (ops : List L2Op) :
    ∀ (c : TerminalFrameCache), L2Wf c → L2Wf (runL2 ops c) := by
  induction ops with
  | nil => intro c h; exact h
  | cons op rest ih =>
    intro c h
    exact ih _ (L2Wf_apply c op h)

theorem L2Wf_new (maxE budget : Nat) : L2Wf (TerminalFrameCache.new maxE budget) :=
  ⟨⟨rfl, Nat.zero_le _, Nat.zero_le _⟩, List.nodup_nil,
    Nat.le_max_right maxE 1, Nat.le_max_right budget 1⟩

/-- C1: starting from a fresh cache, after every finite sequence of operations
both budgeted LRU caches satisfy the spec's invariant: `memory_bytes` equals
the byte total of the live entries, the entry count is bounded by
`max_entries`, and the memory budget is respected except for L1's
single-oversize-entry escape hatch (L2 satisfies the budget bound outright,
which is stronger than the claim's disjunction). -/
theorem claim_c1_cache_invariants :
    (∀ (ops : List L1Op) (maxE budget : Nat),
        L1Inv (runL1 ops (RenderedPageCache.new maxE budget)))
    ∧ ∀ (ops : List L2Op) (maxE budget : Nat),
        L2Inv (runL2 ops (TerminalFrameCache.new maxE budget)) :=
  ⟨fun ops maxE budget =>
      (L1Wf_run ops (RenderedPageCache.new maxE budget) (L1Wf_new maxE budget)).1,
    fun ops maxE budget =>
      (L2Wf_run ops (TerminalFrameCache.new maxE budget) (L2Wf_new maxE budget)).1⟩

end PreviewPdf
